import Mathlib

/-!
Shallow embedding of the deduplication and spatial-distribution engine of
`src/server.js` (an Express server that post-processes Algolia search hits).

Modelling conventions, applied uniformly:

* JS strings are Lean `String`s; handle and title processing is carried out on
  `List Char` with explicit models of the string operations the source uses
  (`split(lit)[0]`, first-occurrence `replace(re, '')`, `$`-anchored suffix
  `replace`, `split(/\s+/)`, `toLowerCase`, `trim`).
* JS numbers used as coordinates are modelled as rationals; `toFixed(6)` is
  modelled by `toFixed6`, rounding to an integer count of micro-degrees
  (two coordinates produce the same key string exactly when they round to the
  same six-decimal representation).
* Scalar engine parameters (`maxPerLocation`, `targetProducts`, `maxResults`,
  `maxPerPhoto`) are JS numbers used only in comparisons, modelled as `Int`.
* JS objects used as string-keyed dictionaries are `{}` literals, so property
  reads fall through to `Object.prototype`: a key such as `"constructor"` or
  `"toString"` reads as an inherited function (truthy) before anything is
  stored.  `protoTruthy` is the characteristic function of those member
  names.  `seenProducts` / `seenBaseHandles` are modelled as Bool-valued
  functions whose *initial* value is `protoTruthy` (a hit whose key is such a
  name is therefore dropped on first sight, as in the source);
  `locationCounts` is a plain counter function because every location key
  string contains `:` or `,` and so never collides with a prototype member;
  `photoCounters` is a plain counter function because its keys come from
  `productsByPhoto`, which raises before ever holding a prototype-member key.
  `productsByLocation` / `productsByPhoto`, whose `Object.keys` insertion
  order matters, are association lists in insertion order (location keys are
  never array-index-like; photo ids are assumed not array-index-like, an
  integer-like photo id would be enumerated first by `Object.keys`).  For
  `productsByPhoto` the read `!productsByPhoto[photo]` on a prototype-member
  photo id is inherited-truthy, initialization is skipped and the subsequent
  `.push` on the inherited member throws a TypeError: `addToGroupsE`,
  `groupByLocationPhotoE` and `deduplicateByLocationPhotoServerE` model this
  error path with `Option` (`none` = the thrown exception), and
  `deduplicateByLocationPhotoServer` describes the non-throwing executions
  (see `deduplicateByLocationPhotoServerE_ok`).
* A missing (`undefined`) field is `Option.none`.  JS truthiness of a string
  is "nonempty", of a number "nonzero"; `NaN` is not representable in `ℚ` and
  is outside the model.
* The four string shapes produced by `getLocationKey` (`"<lat>,<lng>"`,
  `"google_id:…"`, `"address:…"`, `"unique:…"`) are pairwise disjoint, so the
  location key is modelled as an inductive type with one constructor per
  shape; equality of keys coincides with equality of the source's strings.
-/

/-- `meta.location.details` of a hit (`src/server.js:19-21`): any level of the
`meta.location.details` chain may be absent, in which case the source falls
back to `{}`, i.e. all fields read as `undefined`. -/
structure LocationDetails where
  latitude : Option ℚ
  longitude : Option ℚ
  google_id : Option String
  formatted_address : Option String
  location_photo : Option String
  deriving DecidableEq

/-- One raw search hit ("product").  `featured` models `meta.featured`,
`details` models the `meta.location.details` record. -/
structure Hit where
  handle : Option String
  title : Option String
  featured : Option String
  details : Option LocationDetails
  deriving DecidableEq

def emptyDetails : LocationDetails := ⟨none, none, none, none, none⟩

/-- JS truthiness of a possibly-missing string: `undefined` and `""` are falsy. -/
def truthyStr : Option String → Bool
  | some s => decide (¬ s = "")
  | none => false

/-- JS truthiness of a possibly-missing number: `undefined` and `0` are falsy. -/
def truthyNum : Option ℚ → Bool
  | some q => decide (¬ q = 0)
  | none => false

/-- JS string interpolation of a possibly-missing string
(template literals print `undefined` as the string `"undefined"`). -/
def jsShow : Option String → String
  | some s => s
  | none => "undefined"

/-- The location key of `src/server.js:18-36` (`getLocationKey`), as an
inductive type: the source's four string shapes are pairwise disjoint. -/
inductive LocKey where
  | coord : ℤ → ℤ → LocKey
  | googleId : String → LocKey
  | address : String → LocKey
  | unique : String → LocKey
  deriving DecidableEq

/-- Model of JS `Number.prototype.toFixed(6)`: round to six decimal places,
represented as the integer number of micro-units.  (`mkRat 1 2` is the
rational one half, written in kernel-reducible form.) -/
def toFixed6 (q : ℚ) : ℤ := (q * 1000000 + mkRat 1 2).floor

/-- `getLocationKey` (`src/server.js:18-36`): coordinates if both truthy, then
`google_id`, then `formatted_address`, then the singleton `unique:` fallback. -/
def getLocationKey (p : Hit) : LocKey :=
  let details := p.details.getD emptyDetails
  if truthyNum details.latitude && truthyNum details.longitude then
    LocKey.coord (toFixed6 (details.latitude.getD 0)) (toFixed6 (details.longitude.getD 0))
  else if truthyStr details.google_id then
    LocKey.googleId (details.google_id.getD "")
  else if truthyStr details.formatted_address then
    LocKey.address (details.formatted_address.getD "")
  else
    LocKey.unique (jsShow p.handle)

/-! ### Character-level string operations used by the handle normalizers -/

/-- Matcher for a literal pattern at the head of a character list:
returns the matched length when `pat` is a prefix (model of a literal
regex/substring match at one position). -/
def matchLitAt (pat s : List Char) : Option Nat :=
  if pat.isPrefixOf s then some pat.length else none

/-- Matcher for the regex `-\d+x\d+` at the head of a character list
(maximal-munch digit runs; equivalent to the regex here because a failed
`x` test cannot be rescued by giving back digits). -/
def matchSizeAt : List Char → Option Nat
  | '-' :: rest =>
    let d1 := rest.takeWhile Char.isDigit
    if d1.isEmpty then none
    else
      match rest.drop d1.length with
      | 'x' :: rest2 =>
        let d2 := rest2.takeWhile Char.isDigit
        if d2.isEmpty then none else some (1 + d1.length + 1 + d2.length)
      | _ => none
  | _ => none

/-- `s.split(pat)[0]`: the prefix of `s` before the first match of `m`. -/
def takeUntil (m : List Char → Option Nat) : List Char → List Char
  | [] => []
  | c :: cs =>
    match m (c :: cs) with
    | some _ => []
    | none => c :: takeUntil m cs

/-- `s.replace(re, '')` with a non-global regex: delete the first
(leftmost) match of `m`, if any. -/
def removeFirst (m : List Char → Option Nat) : List Char → List Char
  | [] => []
  | c :: cs =>
    match m (c :: cs) with
    | some n => (c :: cs).drop n
    | none => c :: removeFirst m cs

/-- Whether a matcher matches at any position of `s`. -/
def hasMatch (m : List Char → Option Nat) : List Char → Bool
  | [] => false
  | c :: cs => (m (c :: cs)).isSome || hasMatch m cs

/-- `s.replace(/lit$/, '')`: delete the literal pattern when it is a suffix. -/
def removeSuffixLit (pat s : List Char) : List Char :=
  if pat.isSuffixOf s then s.take (s.length - pat.length) else s

/-- Matcher for the reversed suffix regex `-\d+x\d+$`: applied to the
reversed string, it looks for digits, `x`, digits, `-`. -/
def matchSizeRev (r : List Char) : Option Nat :=
  let d2 := r.takeWhile Char.isDigit
  if d2.isEmpty then none
  else
    match r.drop d2.length with
    | 'x' :: rest =>
      let d1 := rest.takeWhile Char.isDigit
      if d1.isEmpty then none
      else
        match rest.drop d1.length with
        | '-' :: _ => some (d2.length + 1 + d1.length + 1)
        | _ => none
    | _ => none

/-- `s.replace(regex -\d+x\d+$, '')`: delete a trailing `-<W>x<H>` size token. -/
def removeSizeSuffix (s : List Char) : List Char :=
  match matchSizeRev s.reverse with
  | some n => (s.reverse.drop n).reverse
  | none => s

def variantPat : List Char := "-variant-".toList
def vPat : List Char := "-v-".toList
def origPat : List Char := "-original-painting".toList
def printPat : List Char := "-print".toList
def canvasPat : List Char := "-canvas".toList
def paperPat : List Char := "-paper".toList

/-- `getProductKey` of `src/server.js:38-43`, on the raw handle string:
`handle.split('-variant-')[0].split('-v-')[0]` followed by three
first-occurrence (unanchored!) `replace(..., '')` calls. -/
def getProductKeyHandle (handle : String) : String :=
  let s1 := takeUntil (matchLitAt variantPat) handle.toList
  let s2 := takeUntil (matchLitAt vPat) s1
  let s3 := removeFirst matchSizeAt s2
  let s4 := removeFirst (matchLitAt origPat) s3
  let s5 := removeFirst (matchLitAt printPat) s4
  String.mk s5

/-- `getProductKey` applied to a hit: the source reads `product.handle || ''`. -/
def getProductKey (p : Hit) : String := getProductKeyHandle (p.handle.getD "")

/-- `getBaseHandle` of `src/server.js:176-186`, on the raw handle string:
the same two splits, then five `$`-anchored suffix `replace` calls. -/
def getBaseHandleHandle (handle : String) : String :=
  let s1 := takeUntil (matchLitAt variantPat) handle.toList
  let s2 := takeUntil (matchLitAt vPat) s1
  let s3 := removeSizeSuffix s2
  let s4 := removeSuffixLit origPat s3
  let s5 := removeSuffixLit printPat s4
  let s6 := removeSuffixLit canvasPat s5
  let s7 := removeSuffixLit paperPat s6
  String.mk s7

/-- `getBaseHandle` applied to a hit (`product.handle || ''`). -/
def getBaseHandle (p : Hit) : String := getBaseHandleHandle (p.handle.getD "")

/-! ### Title similarity (`areTitlesSimilar`, `src/server.js:45-65`) -/

/-- Model of JS `toLowerCase` (ASCII case mapping). -/
def jsToLower (s : String) : String := String.mk (s.toList.map Char.toLower)

/-- Model of JS `trim`: drop whitespace from both ends. -/
def jsTrim (s : String) : String :=
  String.mk (((s.toList.dropWhile Char.isWhitespace).reverse.dropWhile Char.isWhitespace).reverse)

/-- Helper for `split(/\s+/)`: split into maximal non-whitespace runs. -/
def wordsAux : List Char → List Char → List String
  | [], cur => if cur.isEmpty then [] else [String.mk cur.reverse]
  | c :: cs, cur =>
    if c.isWhitespace then
      if cur.isEmpty then wordsAux cs [] else String.mk cur.reverse :: wordsAux cs []
    else wordsAux cs (c :: cur)

/-- Model of JS `s.split(/\s+/)` on the already-trimmed strings the source
feeds it: `""` splits to `[""]`, otherwise to the maximal whitespace-free
runs (a trimmed nonempty string has no leading/trailing empty pieces). -/
def jsSplitWs (s : String) : List String :=
  if s = "" then [""] else wordsAux s.toList []

/-- `areTitlesSimilar` (`src/server.js:45-65`).  The JS `0.8` literal is the
rational `4/5` (passed as `mkRat 4 5`); for the small token counts involved
the correctly-rounded double comparison agrees with the exact rational one.
The source computes `similarity = (commonWords * 2) / (words1.length +
words2.length)` and tests `similarity >= threshold`; since the denominator is
always positive (each token list is nonempty), this is performed here by the
exact cross-multiplied comparison `threshold.num * (len1+len2) <=
(commonWords*2) * threshold.den`, which `ratioGE_eq_div` below proves equal
to the division form `threshold <= (commonWords*2) / (len1+len2)`. -/
def areTitlesSimilar (title1 title2 : String) (threshold : ℚ) : Bool :=
  if title1 = "" ∨ title2 = "" then false
  else
    let t1 := jsTrim (jsToLower title1)
    let t2 := jsTrim (jsToLower title2)
    if t1 = t2 then true
    else
      let words1 := jsSplitWs t1
      let words2 := jsSplitWs t2
      let commonWords := words1.countP (fun w => decide (2 < w.length) && words2.contains w)
      decide (threshold.num * ((words1.length + words2.length : Nat) : ℤ)
        ≤ ((commonWords : ℤ) * 2) * (threshold.den : ℤ))

/-! ### Step 1 collapsers -/

/-- The enumerable-through-the-chain member names of `Object.prototype`: on a
fresh `{}` object each of these reads as an inherited function (for
`__proto__`, as `Object.prototype` itself) — a truthy value — before any own
assignment. -/
def protoNames : List String :=
  ["constructor", "hasOwnProperty", "isPrototypeOf", "propertyIsEnumerable",
   "toLocaleString", "toString", "valueOf", "__defineGetter__",
   "__defineSetter__", "__lookupGetter__", "__lookupSetter__", "__proto__"]

/-- `protoTruthy k` holds exactly when reading key `k` on a fresh `{}` object
yields a truthy inherited value. -/
def protoTruthy (k : String) : Bool := protoNames.contains k

/-- The `hits.forEach` accumulation of `src/server.js:70-91`: skip a hit whose
product key was already recorded, then skip a hit whose title is similar
(threshold `0.8`) to any already-kept hit's title, else keep it and record its
key.  `seen` is the characteristic function of the `seenProducts` object.
Note the similarity comparison passes `product.title || ''` as first argument
and the raw `existingProduct.title` as second; a missing title is modelled as
`""`, which is equivalent because both are falsy in the similarity guard. -/
def collapse1Aux : List Hit → List Hit → (String → Bool) → List Hit
  | [], acc, _ => acc
  | p :: rest, acc, seen =>
    let productKey := getProductKey p
    if seen productKey then collapse1Aux rest acc seen
    else if acc.any (fun e => areTitlesSimilar (p.title.getD "") (e.title.getD "") (mkRat 4 5)) then
      collapse1Aux rest acc seen
    else collapse1Aux rest (acc ++ [p]) (fun k => seen k || k == productKey)

/-- Step 1 of `deduplicateForCollection` (`src/server.js:69-91`).
`seenProducts` is the object literal `{}`, so the initial `seen` is
`protoTruthy`: a hit whose product key is an `Object.prototype` member name
reads as already seen and is silently dropped on first sight. -/
def collapse1 (hits : List Hit) : List Hit := collapse1Aux hits [] protoTruthy

/-- Step 1 of `deduplicateByLocationPhotoServer` (`src/server.js:192-202`):
keep a hit only when its base handle has not been seen. -/
def collapse2Aux : List Hit → List Hit → (String → Bool) → List Hit
  | [], acc, _ => acc
  | p :: rest, acc, seen =>
    let baseHandle := getBaseHandle p
    if seen baseHandle then collapse2Aux rest acc seen
    else collapse2Aux rest (acc ++ [p]) (fun k => seen k || k == baseHandle)

/-- `seenBaseHandles` is the object literal `{}`, so the initial `seen` is
`protoTruthy`: a hit whose base handle is an `Object.prototype` member name is
never kept (`!seenBaseHandles[baseHandle]` is false on first sight). -/
def collapse2 (hits : List Hit) : List Hit := collapse2Aux hits [] protoTruthy

/-! ### Grouping -/

/-- Append `p` to the group of key `k`, or create the group at the end
(model of `productsByLocation[key].push(p)` on an insertion-ordered object). -/
def addToGroups {κ : Type} [DecidableEq κ] : List (κ × List Hit) → κ → Hit → List (κ × List Hit)
  | [], k, p => [(k, [p])]
  | g :: rest, k, p =>
    if g.1 = k then (g.1, g.2 ++ [p]) :: rest else g :: addToGroups rest k p

/-- `productsByLocation` of `src/server.js:96-104`. -/
def groupByLocation (ps : List Hit) : List (LocKey × List Hit) :=
  ps.foldl (fun gs p => addToGroups gs (getLocationKey p) p) []

/-! ### The fair distributor of `deduplicateForCollection` (`src/server.js:93-158`) -/

/-- The mutable state of the `while` loop of `src/server.js:111-158`.
`groups` is `productsByLocation` (whose key list is `locationKeys` — the code
recomputes `Object.keys` exactly when a group is deleted, so the key list
always equals the association list's keys). -/
structure DState where
  groups : List (LocKey × List Hit)
  counts : LocKey → Nat
  result : List Hit
  locationIndex : Nat

/-- The indices scanned by the inner `for` loop: `(locationIndex + i) % len`
for `i = 0 .. len-1`. -/
def scanOrder (start len : Nat) : List Nat :=
  (List.range len).map (fun i => (start + i) % len)

/-- Whether the group at index `idx` can receive the next placement
(`src/server.js:115-136`): it must be nonempty, under the per-location cap,
and different from the location of the last placed product. -/
def eligibleAt (groups : List (LocKey × List Hit)) (counts : LocKey → Nat)
    (lastKey : Option LocKey) (maxPerLocation : Int) (idx : Nat) : Bool :=
  match groups[idx]? with
  | some g =>
    !g.2.isEmpty && decide ((counts g.1 : Int) < maxPerLocation)
      && decide (¬ lastKey = some g.1)
  | none => false

/-- The index at which the inner `for` loop places a product, if any. -/
def findSpot (maxPerLocation : Int) (s : DState) : Option Nat :=
  (scanOrder s.locationIndex s.groups.length).find?
    (eligibleAt s.groups s.counts (s.result.getLast?.map getLocationKey) maxPerLocation)

/-- One placement (`src/server.js:138-150`): shift the group's first product
into the result, bump the location count, delete the group when exhausted,
then advance the rotating start index (`src/server.js:157`). -/
def place (s : DState) (idx : Nat) : DState :=
  match s.groups[idx]? with
  | some (k, p :: rest) =>
    let newGroups := if rest.isEmpty then s.groups.eraseIdx idx else s.groups.set idx (k, rest)
    ⟨newGroups,
      fun k2 => if k2 = k then s.counts k + 1 else s.counts k2,
      s.result ++ [p],
      (s.locationIndex + 1) % max 1 newGroups.length⟩
  | _ => s

/-- The outer `while` loop (`src/server.js:111-158`): runs while the result is
under target, groups remain and the iteration budget (`maxIterations`, passed
here as `fuel`) is not exhausted; `foundProduct = false` (no eligible group in
a full scan) breaks out. -/
def distLoop (maxPerLocation targetProducts : Int) : Nat → DState → DState
  | 0, s => s
  | fuel + 1, s =>
    if (s.result.length : Int) < targetProducts ∧ 0 < s.groups.length then
      match findSpot maxPerLocation s with
      | some idx => distLoop maxPerLocation targetProducts fuel (place s idx)
      | none => s
    else s

/-- `deduplicateForCollection` (`src/server.js:68-161`): collapse, group by
location key, then distribute with `maxIterations = uniqueProducts.length * 2`. -/
def deduplicateForCollection (hits : List Hit) (maxPerLocation targetProducts : Int) : List Hit :=
  let uniqueProducts := collapse1 hits
  (distLoop maxPerLocation targetProducts (uniqueProducts.length * 2)
    ⟨groupByLocation uniqueProducts, fun _ => 0, [], 0⟩).result

/-! ### The featured-first photo engine (`deduplicateByLocationPhotoServer`,
`src/server.js:164-303`) -/

/-- `getLocationPhoto` (`src/server.js:172-174`): the `|| null` coerces a
falsy (empty) photo id to `null`. -/
def getLocationPhoto (p : Hit) : Option String :=
  match (p.details.getD emptyDetails).location_photo with
  | some s => if s = "" then none else some s
  | none => none

/-- `isFeatured` (`src/server.js:188-190`): strict equality with `'yes'`. -/
def isFeatured (p : Hit) : Bool := decide (p.featured = some "yes")

/-- `groupByLocationPhoto` (`src/server.js:216-233`): partition into an
insertion-ordered association list of photo groups and the list of hits
without a (truthy) location photo.  This is the non-throwing behaviour: when
a photo id is an `Object.prototype` member name the source throws a TypeError
instead — `groupByLocationPhotoE` below carries that error path, and
`groupByLocationPhotoE_ok` relates the two. -/
def groupByLocationPhoto (products : List Hit) : List (String × List Hit) × List Hit :=
  products.foldl
    (fun acc p =>
      match getLocationPhoto p with
      | some u => (addToGroups acc.1 u p, acc.2)
      | none => (acc.1, acc.2 ++ [p]))
    ([], [])

/-- One entry of a distribution queue (`src/server.js:246-251`). -/
structure QItem where
  uuid : String
  product : Hit
  round : Nat
  featured : Bool
  deriving DecidableEq

/-- `createDistributionQueue` (`src/server.js:239-257`): for each round
`0 .. maxRounds-1`, push the round-th product of every photo group that still
has one. -/
def createDistributionQueue (productsByPhoto : List (String × List Hit)) (maxRounds : Int) :
    List QItem :=
  (List.range maxRounds.toNat).flatMap
    (fun round =>
      productsByPhoto.filterMap
        (fun g =>
          match g.2[round]? with
          | some p => some ⟨g.1, p, round, isFeatured p⟩
          | none => none))

/-- The two `while` loops of `src/server.js:267-286`: shift queue items while
the result is under `maxResults`, placing an item only when its photo counter
is under `maxPerPhoto`. -/
def drain (maxResults maxPerPhoto : Int) :
    List QItem → List Hit → (String → Nat) → List Hit × (String → Nat)
  | [], result, counters => (result, counters)
  | item :: rest, result, counters =>
    if (result.length : Int) < maxResults then
      let currentCount := counters item.uuid
      if (currentCount : Int) < maxPerPhoto then
        drain maxResults maxPerPhoto rest (result ++ [item.product])
          (fun u => if u = item.uuid then currentCount + 1 else counters u)
      else drain maxResults maxPerPhoto rest result counters
    else (result, counters)

/-- `deduplicateByLocationPhotoServer` (`src/server.js:164-303`): collapse by
base handle, split featured/regular, group each tier by location photo, build
both distribution queues, drain featured then regular against shared photo
counters, then append the without-photo hits (featured first) truncated to
the remaining budget. -/
def deduplicateByLocationPhotoServer (hits : List Hit) (maxResults maxPerPhoto : Int) : List Hit :=
  let uniqueProducts := collapse2 hits
  let featuredProducts := uniqueProducts.filter (fun p => isFeatured p)
  let regularProducts := uniqueProducts.filter (fun p => !isFeatured p)
  let featuredGroups := groupByLocationPhoto featuredProducts
  let regularGroups := groupByLocationPhoto regularProducts
  let featuredQueue := createDistributionQueue featuredGroups.1 maxPerPhoto
  let regularQueue := createDistributionQueue regularGroups.1 maxPerPhoto
  let d1 := drain maxResults maxPerPhoto featuredQueue [] (fun _ => 0)
  let d2 := drain maxResults maxPerPhoto regularQueue d1.1 d1.2
  let remainingSlots := maxResults - (d2.1.length : Int)
  if 0 < remainingSlots then
    d2.1 ++ (featuredGroups.2 ++ regularGroups.2).take remainingSlots.toNat
  else d2.1

/-- `productsByPhoto[photo].push(product)` preceded by
`if (!productsByPhoto[photo]) productsByPhoto[photo] = []` on the `{}` object
(`src/server.js:222-227`), with the prototype chain: when `photo` has no own
entry and is an `Object.prototype` member name the guard reads
inherited-truthy, initialization is skipped and `.push` is called on the
inherited member — a TypeError, modelled as `none`.  Otherwise the behaviour
is `addToGroups`. -/
def addToGroupsE : List (String × List Hit) → String → Hit →
    Option (List (String × List Hit))
  | [], k, p => if protoTruthy k then none else some [(k, [p])]
  | g :: rest, k, p =>
    if g.1 = k then some ((g.1, g.2 ++ [p]) :: rest)
    else (addToGroupsE rest k p).map (fun r => g :: r)

/-- `groupByLocationPhoto` with its error path: `none` models the TypeError
thrown at the first hit whose location photo is an `Object.prototype` member
name. -/
def groupByLocationPhotoE (products : List Hit) :
    Option (List (String × List Hit) × List Hit) :=
  products.foldl
    (fun acc p =>
      match acc with
      | none => none
      | some a =>
        match getLocationPhoto p with
        | some u => (addToGroupsE a.1 u p).map (fun gs => (gs, a.2))
        | none => some (a.1, a.2 ++ [p]))
    (some ([], []))

/-- `deduplicateByLocationPhotoServer` with the grouping error path made
explicit: `none` models the TypeError escaping the engine when either tier's
grouping hits an `Object.prototype` member photo id.  (The source evaluates
the featured grouping first; since both groupings are side-effect-free and
independent, returning `none` when either fails is observationally the
same.) -/
def deduplicateByLocationPhotoServerE (hits : List Hit) (maxResults maxPerPhoto : Int) :
    Option (List Hit) :=
  let uniqueProducts := collapse2 hits
  let featuredProducts := uniqueProducts.filter (fun p => isFeatured p)
  let regularProducts := uniqueProducts.filter (fun p => !isFeatured p)
  match groupByLocationPhotoE featuredProducts, groupByLocationPhotoE regularProducts with
  | some featuredGroups, some regularGroups =>
    let featuredQueue := createDistributionQueue featuredGroups.1 maxPerPhoto
    let regularQueue := createDistributionQueue regularGroups.1 maxPerPhoto
    let d1 := drain maxResults maxPerPhoto featuredQueue [] (fun _ => 0)
    let d2 := drain maxResults maxPerPhoto regularQueue d1.1 d1.2
    let remainingSlots := maxResults - (d2.1.length : Int)
    some (if 0 < remainingSlots then
        d2.1 ++ (featuredGroups.2 ++ regularGroups.2).take remainingSlots.toNat
      else d2.1)
  | _, _ => none

/-- The similarity predicate as worded by the specification (claim C5):
similar iff exactly equal after lowercasing and trimming, or the
token-overlap ratio `2*commonTokens / (tokens1.length + tokens2.length)` is
at least `0.8`, counting as common only whitespace-separated tokens longer
than two characters; never similar when either title is empty or missing. -/
def specTitlesSimilar (t1 t2 : String) : Bool :=
  if t1 = "" ∨ t2 = "" then false
  else
    let n1 := jsTrim (jsToLower t1)
    let n2 := jsTrim (jsToLower t2)
    let tokens1 := jsSplitWs n1
    let tokens2 := jsSplitWs n2
    let commonTokens := tokens1.countP (fun w => decide (2 < w.length) && tokens2.contains w)
    (n1 == n2)
      || decide ((4/5 : ℚ) ≤
          (commonTokens * 2 : ℚ) / ((tokens1.length : ℚ) + (tokens2.length : ℚ)))

/-! ### Auxiliary definitions used by the statements -/

/-- No marker of `getProductKeyHandle` occurs anywhere in `s` (the three
`replace` patterns are unanchored, the two split patterns match anywhere). -/
def noMarkers1 (s : List Char) : Bool :=
  !hasMatch (matchLitAt variantPat) s && !hasMatch (matchLitAt vPat) s &&
  !hasMatch matchSizeAt s && !hasMatch (matchLitAt origPat) s &&
  !hasMatch (matchLitAt printPat) s

/-- No marker of `getBaseHandleHandle` is left in `s`: no occurrence of the
two split patterns, and none of the five suffix patterns is a suffix. -/
def noMarkers2 (s : List Char) : Bool :=
  !hasMatch (matchLitAt variantPat) s && !hasMatch (matchLitAt vPat) s &&
  decide (matchSizeRev s.reverse = none) && !origPat.isSuffixOf s &&
  !printPat.isSuffixOf s && !canvasPat.isSuffixOf s && !paperPat.isSuffixOf s

/-- `p` with the coordinate fields of its location details removed. -/
def clearCoords (p : Hit) : Hit :=
  ⟨p.handle, p.title, p.featured,
    some ⟨none, none, (p.details.getD emptyDetails).google_id,
      (p.details.getD emptyDetails).formatted_address,
      (p.details.getD emptyDetails).location_photo⟩⟩

/-- Number of occurrences of location key `k` in a hit list. -/
def occKey (k : LocKey) (l : List Hit) : Nat :=
  l.countP (fun p => decide (getLocationKey p = k))

/-- Number of occurrences of location photo `u` in a hit list. -/
def occPhoto (u : String) (l : List Hit) : Nat :=
  l.countP (fun p => decide (getLocationPhoto p = some u))

/-- Total number of hits stored in an association list of groups. -/
def totalItems {κ : Type} (gs : List (κ × List Hit)) : Nat :=
  (gs.map (fun g => g.2.length)).sum

/-- A hit with only a `google_id` location (used for concrete instances). -/
def gHit (h : String) : Hit := ⟨some h, none, none, some ⟨none, none, some "g1", none, none⟩⟩

/-- Concrete hits for the title-similarity collapse instance. -/
def titleHit1 : Hit := ⟨some "h1", some "sunset over paris beautiful", none, none⟩

def titleHit2 : Hit := ⟨some "y-print", some "sunset over paris beautiful wow", none, none⟩

def titleHit3 : Hit := ⟨some "y", some "zzzz", none, none⟩

/-- A featured hit without a location photo. -/
def featNoPhoto : Hit := ⟨some "fna", none, some "yes", none⟩

/-- A regular hit with a location photo. -/
def regWithPhoto : Hit := ⟨some "rwp", none, none, some ⟨none, none, none, none, some "p1"⟩⟩

/-- A regular hit whose location photo is the `Object.prototype` member name
`"constructor"` (its handle is ordinary). -/
def protoPhotoHit : Hit :=
  ⟨some "artwork-a", none, none, some ⟨none, none, none, none, some "constructor"⟩⟩

/-- A hit whose handle — hence base handle and product key — is the
`Object.prototype` member name `"toString"`. -/
def protoHandleHit : Hit := ⟨some "toString", some "some title", none, none⟩

/-- A featured hit with a location photo. -/
def fHit (h ph : String) : Hit := ⟨some h, none, some "yes", some ⟨none, none, none, none, some ph⟩⟩

/-- A regular hit with a location photo. -/
def rHit (h ph : String) : Hit := ⟨some h, none, none, some ⟨none, none, none, none, some ph⟩⟩

/-- The concrete input of the spec's Scenario D: two featured and ten regular
hits, all with distinct handles and distinct location photos. -/
def scenarioD : List Hit :=
  [fHit "f1" "pa", fHit "f2" "pb", rHit "r1" "q1", rHit "r2" "q2", rHit "r3" "q3",
   rHit "r4" "q4", rHit "r5" "q5", rHit "r6" "q6", rHit "r7" "q7", rHit "r8" "q8",
   rHit "r9" "q9", rHit "r10" "q10"]

/-! ## Helper lemmas -/

theorem ratioGE_eq_div (t : ℚ) (c n : Nat) (hn : 0 < n) :
    decide (t.num * (n : ℤ) ≤ ((c : ℤ) * 2) * (t.den : ℤ))
      = decide (t ≤ (c * 2 : ℚ) / ((n : ℚ))) := by
  rw [decide_eq_decide]
  have hnq : (0 : ℚ) < (n : ℚ) := by exact_mod_cast hn
  have hdq : (0 : ℚ) < (t.den : ℚ) := by exact_mod_cast t.pos
  rw [le_div_iff hnq]
  have ht : t = (t.num : ℚ) / (t.den : ℚ) := (Rat.num_div_den t).symm
  constructor
  · intro h
    rw [ht, div_mul_eq_mul_div, div_le_iff hdq]
    exact_mod_cast h
  · intro h
    rw [ht, div_mul_eq_mul_div, div_le_iff hdq] at h
    exact_mod_cast h

theorem dropWhile_head_eq_false {p : Char → Bool} :
    ∀ {l : List Char} {c : Char} {rest : List Char},
      l.dropWhile p = c :: rest → p c = false := by
  intro l
  induction l with
  | nil => intro c rest h; simp [List.dropWhile] at h
  | cons a l ih =>
    intro c rest h
    by_cases ha : p a = true
    · rw [List.dropWhile_cons_of_pos ha] at h
      exact ih h
    · rw [List.dropWhile_cons_of_neg ha] at h
      cases h
      simpa using ha

theorem trimmed_head_not_ws {s : String} (h : ¬ jsTrim s = "") :
    ∃ c rest, (jsTrim s).toList = c :: rest ∧ c.isWhitespace = false := by
  unfold jsTrim at h ⊢
  generalize ha : s.toList.dropWhile Char.isWhitespace = a at h ⊢
  cases hl : (a.reverse.dropWhile Char.isWhitespace).reverse with
  | nil => exact absurd (by simp [hl]) h
  | cons c rest =>
    refine ⟨c, rest, by simp [hl], ?_⟩
    have hsuf : a.reverse.dropWhile Char.isWhitespace <:+ a.reverse :=
      List.dropWhile_suffix _
    obtain ⟨t, ht⟩ := hsuf
    have hpre : a = (c :: rest) ++ t.reverse := by
      have := congrArg List.reverse ht
      simpa [hl] using this.symm
    exact @dropWhile_head_eq_false _ _ c (rest ++ t.reverse) (by rw [ha] at *; simp [hpre])

theorem wordsAux_length_pos :
    ∀ (l cur : List Char), cur.isEmpty = false → 0 < (wordsAux l cur).length := by
  intro l
  induction l with
  | nil => intro cur hc; simp [wordsAux, hc]
  | cons c cs ih =>
    intro cur hc
    by_cases hw : c.isWhitespace = true
    · simp [wordsAux, hw, hc]
    · simp only [wordsAux, Bool.not_eq_true _ ▸ hw, if_neg hw]
      exact ih (c :: cur) (by simp)

theorem jsSplitWs_trim_length_pos (s : String) : 0 < (jsSplitWs (jsTrim s)).length := by
  by_cases h : jsTrim s = ""
  · simp [jsSplitWs, h]
  · obtain ⟨c, rest, hl, hw⟩ := trimmed_head_not_ws h
    rw [jsSplitWs, if_neg h, hl]
    simp only [wordsAux, hw, if_neg (by simp [hw] : ¬ c.isWhitespace = true)]
    exact wordsAux_length_pos rest [c] (by simp)

theorem hasMatch_cons_elim {m : List Char → Option Nat} {c : Char} {cs : List Char}
    (h : hasMatch m (c :: cs) = false) : m (c :: cs) = none ∧ hasMatch m cs = false := by
  simp only [hasMatch, Bool.or_eq_false_iff] at h
  exact ⟨Option.not_isSome_iff_eq_none.mp (by simp [h.1]), h.2⟩

theorem takeUntil_of_noMatch (m : List Char → Option Nat) :
    ∀ s : List Char, hasMatch m s = false → takeUntil m s = s := by
  intro s
  induction s with
  | nil => intro _; rfl
  | cons c cs ih =>
    intro h
    obtain ⟨h1, h2⟩ := hasMatch_cons_elim h
    simp [takeUntil, h1, ih h2]

theorem removeFirst_of_noMatch (m : List Char → Option Nat) :
    ∀ s : List Char, hasMatch m s = false → removeFirst m s = s := by
  intro s
  induction s with
  | nil => intro _; rfl
  | cons c cs ih =>
    intro h
    obtain ⟨h1, h2⟩ := hasMatch_cons_elim h
    simp [removeFirst, h1, ih h2]

theorem removeSuffixLit_of_noSuffix {pat s : List Char} (h : pat.isSuffixOf s = false) :
    removeSuffixLit pat s = s := by
  simp [removeSuffixLit, h]

theorem removeSizeSuffix_of_noMatch {s : List Char} (h : matchSizeRev s.reverse = none) :
    removeSizeSuffix s = s := by
  simp [removeSizeSuffix, h]


/-! ## C3: base-identity normalization -/

/-- C3 (counterexample): normalization is not idempotent.  For the handle
`"a-print-print"`, `getProductKey` strips only the first `-print` occurrence
(`getBaseHandle` only the trailing one), yielding `"a-print"`, from which a
second application strips the remaining `-print`; so applying the
normalization to an already-normalized handle does not return it unchanged. -/
theorem c3_counterexample :
    ¬ getProductKeyHandle (getProductKeyHandle "a-print-print")
        = getProductKeyHandle "a-print-print" ∧
    ¬ getBaseHandleHandle (getBaseHandleHandle "a-print-print")
        = getBaseHandleHandle "a-print-print" := by
  decide

/-- C3 (amended): base-identity normalization is idempotent on every handle
whose normal form contains no residual marker: if no split/replace pattern of
`getProductKey` occurs in `getProductKeyHandle h` then normalizing it again
returns it unchanged, and likewise for `getBaseHandle` when no split pattern
occurs in `getBaseHandleHandle h` and no suffix pattern is a suffix of it.
(In general normalization is not idempotent because each `replace` deletes
only one occurrence; see the counterexample.) -/
theorem c3_amended_idempotent (h : String) :
    (noMarkers1 (getProductKeyHandle h).toList = true →
      getProductKeyHandle (getProductKeyHandle h) = getProductKeyHandle h) ∧
    (noMarkers2 (getBaseHandleHandle h).toList = true →
      getBaseHandleHandle (getBaseHandleHandle h) = getBaseHandleHandle h) := by
  constructor
  · intro hm
    generalize getProductKeyHandle h = t at hm ⊢
    simp only [noMarkers1, Bool.and_eq_true, Bool.not_eq_true'] at hm
    obtain ⟨⟨⟨⟨h1, h2⟩, h3⟩, h4⟩, h5⟩ := hm
    simp only [getProductKeyHandle]
    rw [takeUntil_of_noMatch _ _ h1, takeUntil_of_noMatch _ _ h2,
      removeFirst_of_noMatch _ _ h3, removeFirst_of_noMatch _ _ h4,
      removeFirst_of_noMatch _ _ h5]
    rfl
  · intro hm
    generalize getBaseHandleHandle h = t at hm ⊢
    simp only [noMarkers2, Bool.and_eq_true, Bool.not_eq_true', decide_eq_true_eq] at hm
    obtain ⟨⟨⟨⟨⟨⟨h1, h2⟩, h3⟩, h4⟩, h5⟩, h6⟩, h7⟩ := hm
    simp only [getBaseHandleHandle]
    rw [takeUntil_of_noMatch _ _ h1, takeUntil_of_noMatch _ _ h2,
      removeSizeSuffix_of_noMatch h3, removeSuffixLit_of_noSuffix h4,
      removeSuffixLit_of_noSuffix h5, removeSuffixLit_of_noSuffix h6,
      removeSuffixLit_of_noSuffix h7]
    rfl

/-- C3 (witness): the amended idempotence applied to the marker-free handle
`"sunset-over-paris"`. -/
theorem c3_amended_idempotent_witness :
    noMarkers1 (getProductKeyHandle "sunset-over-paris").toList = true ∧
    noMarkers2 (getBaseHandleHandle "sunset-over-paris").toList = true ∧
    getProductKeyHandle (getProductKeyHandle "sunset-over-paris")
      = getProductKeyHandle "sunset-over-paris" ∧
    getBaseHandleHandle (getBaseHandleHandle "sunset-over-paris")
      = getBaseHandleHandle "sunset-over-paris" :=
  ⟨by decide, by decide,
    (c3_amended_idempotent "sunset-over-paris").1 (by decide),
    (c3_amended_idempotent "sunset-over-paris").2 (by decide)⟩


/-! ## C5: title similarity -/

/-- C5: `areTitlesSimilar` (threshold `0.8`) coincides with the
specification's description: similar iff exactly equal after lowercasing and
trimming, or the token-overlap ratio
`2*commonTokens / (tokens1.length + tokens2.length)` — counting as common
only whitespace-separated tokens longer than two characters, case-insensitive
— is at least `0.8`; a pair with an empty or missing title is never similar
(a missing title enters the comparison as `''`); and the spec's Scenario C
pair is judged similar. -/
theorem c5_title_similarity :
    (∀ t1 t2 : String, areTitlesSimilar t1 t2 (mkRat 4 5) = specTitlesSimilar t1 t2) ∧
    (∀ t : String,
      areTitlesSimilar "" t (mkRat 4 5) = false ∧ areTitlesSimilar t "" (mkRat 4 5) = false) ∧
    areTitlesSimilar "Sunset Over Paris" "sunset over paris " (mkRat 4 5) = true := by
  refine ⟨?_, ?_, by decide⟩
  · intro t1 t2
    unfold areTitlesSimilar specTitlesSimilar
    by_cases h : t1 = "" ∨ t2 = ""
    · simp [h]
    · simp only [if_neg h]
      by_cases h2 : jsTrim (jsToLower t1) = jsTrim (jsToLower t2)
      · simp [h2]
      · have hb : (jsTrim (jsToLower t1) == jsTrim (jsToLower t2)) = false := by
          simpa using h2
        have hn : 0 < (jsSplitWs (jsTrim (jsToLower t1))).length
            + (jsSplitWs (jsTrim (jsToLower t2))).length := by
          have p1 := jsSplitWs_trim_length_pos (jsToLower t1)
          omega
        simp only [if_neg h2, hb, Bool.false_or]
        rw [ratioGE_eq_div _ _ _ hn]
        rw [decide_eq_decide]
        have hmk : (mkRat 4 5 : ℚ) = 4/5 := by
          rw [Rat.mkRat_eq_div]
          norm_num
        rw [hmk]
        push_cast
        exact Iff.rfl
  · intro t
    constructor
    · simp [areTitlesSimilar]
    · simp [areTitlesSimilar]

/-! ## C10: zero or partial coordinates -/

/-- C10: a hit whose latitude or longitude is `0` or absent never receives a
coordinate-based location key: the key equals the key of the same hit with
both coordinates removed (falling through to `google_id`, formatted address,
or the singleton fallback), so a zero coordinate behaves exactly like an
absent one. -/
theorem c10_zero_coordinate_falls_through (p : Hit)
    (h : (p.details.getD emptyDetails).latitude = none ∨
         (p.details.getD emptyDetails).latitude = some 0 ∨
         (p.details.getD emptyDetails).longitude = none ∨
         (p.details.getD emptyDetails).longitude = some 0) :
    getLocationKey p = getLocationKey (clearCoords p) ∧
    ∀ a b : ℤ, ¬ getLocationKey p = LocKey.coord a b := by
  have hfalse : (truthyNum (p.details.getD emptyDetails).latitude &&
      truthyNum (p.details.getD emptyDetails).longitude) = false := by
    rcases h with h | h | h | h <;> simp [h, truthyNum]
  constructor
  · simp only [getLocationKey, clearCoords, Option.getD_some, hfalse]
    simp [truthyNum]
  · intro a b
    simp only [getLocationKey, hfalse, Bool.false_eq_true, if_false]
    split
    · simp
    · split <;> simp

/-- C10 (witness): a hit with latitude `0`, longitude `5` and a `google_id`
receives the `google_id`-based key, the same as with coordinates removed. -/
theorem c10_zero_coordinate_falls_through_witness :
    ((some (⟨some 0, some 5, some "g", none, none⟩ : LocationDetails) :
        Option LocationDetails).getD emptyDetails).latitude = some 0 ∧
    getLocationKey ⟨some "h", none, none, some ⟨some 0, some 5, some "g", none, none⟩⟩
      = getLocationKey (clearCoords ⟨some "h", none, none, some ⟨some 0, some 5, some "g", none, none⟩⟩) :=
  ⟨by decide,
    (c10_zero_coordinate_falls_through
      ⟨some "h", none, none, some ⟨some 0, some 5, some "g", none, none⟩⟩
      (Or.inr (Or.inl (by decide)))).1⟩


/-! ## C8: the `Object.prototype` error path of the photo engine -/

theorem distLoop_of_result_full (maxPerLocation targetProducts : Int) (fuel : Nat) (s : DState)
    (h : ¬ ((s.result.length : Int) < targetProducts)) :
    distLoop maxPerLocation targetProducts fuel s = s := by
  cases fuel with
  | zero => rfl
  | succ n =>
    simp only [distLoop]
    rw [if_neg (fun hc => h hc.1)]

theorem drain_of_result_full (maxResults maxPerPhoto : Int) (q : List QItem) (res : List Hit)
    (c : String → Nat) (h : ¬ ((res.length : Int) < maxResults)) :
    drain maxResults maxPerPhoto q res c = (res, c) := by
  cases q with
  | nil => rfl
  | cons it rest =>
    simp only [drain]
    rw [if_neg h]

theorem flatMap_const_nil {α β : Type} (l : List α) :
    (l.flatMap (fun _ => ([] : List β))) = [] := by
  induction l with
  | nil => rfl
  | cons a l ih => simp [ih]

theorem addToGroupsE_ok : ∀ (gs : List (String × List Hit)) (k : String) (p : Hit)
    (r : List (String × List Hit)),
    addToGroupsE gs k p = some r → addToGroups gs k p = r := by
  intro gs
  induction gs with
  | nil =>
    intro k p r h
    simp only [addToGroupsE] at h
    by_cases hk : protoTruthy k = true
    · rw [if_pos hk] at h
      exact absurd h (by simp)
    · rw [if_neg hk] at h
      simp only [Option.some.injEq] at h
      simpa [addToGroups] using h
  | cons g rest ih =>
    intro k p r h
    simp only [addToGroupsE] at h
    by_cases hg : g.1 = k
    · rw [if_pos hg] at h
      simp only [Option.some.injEq] at h
      simp [addToGroups, hg, ← h]
    · rw [if_neg hg] at h
      cases he : addToGroupsE rest k p with
      | none => rw [he] at h; exact absurd h (by simp)
      | some r2 =>
        rw [he] at h
        simp only [Option.map_some', Option.some.injEq] at h
        simp only [addToGroups]
        rw [if_neg hg, ih k p r2 he]
        exact h

/-- Once the accumulator of `groupByLocationPhotoE` is `none` it stays `none`. -/
theorem groupPhotoFoldE_none (l : List Hit) :
    l.foldl
      (fun acc p =>
        match acc with
        | none => none
        | some a =>
          match getLocationPhoto p with
          | some u => (addToGroupsE a.1 u p).map (fun gs => (gs, a.2))
          | none => some (a.1, a.2 ++ [p]))
      none = none := by
  induction l with
  | nil => rfl
  | cons p rest ih =>
    simp only [List.foldl_cons]
    exact ih

theorem groupByLocationPhotoE_ok_aux : ∀ (l : List Hit)
    (acc r : List (String × List Hit) × List Hit),
    l.foldl
      (fun acc p =>
        match acc with
        | none => none
        | some a =>
          match getLocationPhoto p with
          | some u => (addToGroupsE a.1 u p).map (fun gs => (gs, a.2))
          | none => some (a.1, a.2 ++ [p]))
      (some acc) = some r →
    l.foldl
      (fun acc p =>
        match getLocationPhoto p with
        | some u => (addToGroups acc.1 u p, acc.2)
        | none => (acc.1, acc.2 ++ [p]))
      acc = r := by
  intro l
  induction l with
  | nil =>
    intro acc r h
    simpa using h
  | cons p rest ih =>
    intro acc r h
    simp only [List.foldl_cons] at h ⊢
    cases hph : getLocationPhoto p with
    | none =>
      simp only [hph] at h ⊢
      exact ih (acc.1, acc.2 ++ [p]) r h
    | some u =>
      simp only [hph] at h ⊢
      cases he : addToGroupsE acc.1 u p with
      | none =>
        rw [he] at h
        simp only [Option.map_none'] at h
        rw [groupPhotoFoldE_none] at h
        exact absurd h (by simp)
      | some gs =>
        rw [he] at h
        simp only [Option.map_some'] at h
        rw [addToGroupsE_ok acc.1 u p gs he]
        exact ih (gs, acc.2) r h

/-- On every non-throwing execution the total `groupByLocationPhoto` agrees
with the error-carrying `groupByLocationPhotoE`. -/
theorem groupByLocationPhotoE_ok (l : List Hit) (r : List (String × List Hit) × List Hit)
    (h : groupByLocationPhotoE l = some r) : groupByLocationPhoto l = r := by
  simp only [groupByLocationPhotoE] at h
  simp only [groupByLocationPhoto]
  exact groupByLocationPhotoE_ok_aux l ([], []) r h

/-- On every non-throwing execution the total
`deduplicateByLocationPhotoServer` agrees with the error-carrying
`deduplicateByLocationPhotoServerE`. -/
theorem deduplicateByLocationPhotoServerE_ok (hits : List Hit) (M P : Int) (r : List Hit)
    (h : deduplicateByLocationPhotoServerE hits M P = some r) :
    deduplicateByLocationPhotoServer hits M P = r := by
  simp only [deduplicateByLocationPhotoServerE] at h
  simp only [deduplicateByLocationPhotoServer]
  cases hf : groupByLocationPhotoE ((collapse2 hits).filter (fun p => isFeatured p)) with
  | none => rw [hf] at h; exact absurd h (by simp)
  | some fg =>
    cases hr : groupByLocationPhotoE ((collapse2 hits).filter (fun p => !isFeatured p)) with
    | none => rw [hf, hr] at h; exact absurd h (by simp)
    | some rg =>
      rw [hf, hr] at h
      rw [groupByLocationPhotoE_ok _ _ hf, groupByLocationPhotoE_ok _ _ hr]
      exact Option.some.inj h

/-- C8: the engine is not exception-free over its declared input type.  For a
hit whose `location_photo` is the `Object.prototype` member name
`"constructor"`, the guard `!productsByPhoto[locationPhoto]` of
`groupByLocationPhoto` reads an inherited truthy value, initialization is
skipped, and `.push` is called on the inherited member — a TypeError escapes
`deduplicateByLocationPhotoServer` (modelled by `none`).  The empty-input
case, by contrast, does return an empty output without error. -/
theorem c8_photo_key_type_error :
    getLocationPhoto protoPhotoHit = some "constructor" ∧
    deduplicateByLocationPhotoServerE [protoPhotoHit] 24 2 = none ∧
    (∀ M P : Int, deduplicateByLocationPhotoServerE [] M P = some []) := by
  refine ⟨rfl, by decide, ?_⟩
  intro M P
  simp only [deduplicateByLocationPhotoServerE, collapse2, collapse2Aux, List.filter_nil,
    groupByLocationPhotoE, List.foldl_nil, createDistributionQueue, List.filterMap_nil,
    flatMap_const_nil, drain]
  split <;> simp

/-! ## Concrete counterexamples for C1, C4, C6 -/

/-- C1 (counterexample): five hits sharing one location key (`google_id`
`"g1"`) with `maxPerGroup = 2`, `targetCount = 10` produce an output of
length 1, not 2: after the first placement the only remaining group carries
the key of the last placed item, the inner scan finds no eligible group,
`foundProduct` stays false and the loop breaks — the distributor stalls
instead of placing the forced item. -/
theorem c1_counterexample :
    (deduplicateForCollection [gHit "h1", gHit "h2", gHit "h3", gHit "h4", gHit "h5"] 2 10).length
        = 1 ∧
    ¬ (deduplicateForCollection [gHit "h1", gHit "h2", gHit "h3", gHit "h4", gHit "h5"] 2 10).length
        = 2 := by
  decide

/-- C4 (counterexample): the surviving hit of a BaseIdentity need not be the
first hit encountered with that identity.  `titleHit2` (handle `"y-print"`,
identity `"y"`) is dropped because its title is similar to the kept
`titleHit1`'s title, and its identity is therefore never recorded; the later
`titleHit3` (handle `"y"`, same identity `"y"`) then survives. -/
theorem c4_counterexample :
    collapse1 [titleHit1, titleHit2, titleHit3] = [titleHit1, titleHit3] ∧
    getProductKey titleHit2 = getProductKey titleHit3 := by
  decide

/-- C6 (counterexample): a featured hit without a location photo is only
appended in the trailing no-photo block, after regular hits drawn from the
photo queues: for a featured photo-less hit and a regular hit with a photo,
the output is the regular hit first, the featured hit second. -/
theorem c6_counterexample :
    deduplicateByLocationPhotoServer [featNoPhoto, regWithPhoto] 6 2
        = [regWithPhoto, featNoPhoto] ∧
    isFeatured featNoPhoto = true ∧ isFeatured regWithPhoto = false := by
  decide


/-! ## Collapse lemmas (C4) -/

theorem collapse1Aux_decomp : ∀ (l acc : List Hit) (seen : String → Bool),
    ∃ s, collapse1Aux l acc seen = acc ++ s ∧ s.Sublist l := by
  intro l
  induction l with
  | nil =>
    intro acc seen
    exact ⟨[], by simp [collapse1Aux], List.nil_sublist []⟩
  | cons p rest ih =>
    intro acc seen
    simp only [collapse1Aux]
    by_cases h1 : seen (getProductKey p) = true
    · rw [if_pos h1]
      obtain ⟨s, hs, hsub⟩ := ih acc seen
      exact ⟨s, hs, hsub.cons p⟩
    · rw [if_neg h1]
      by_cases h2 : (acc.any fun e =>
          areTitlesSimilar (p.title.getD "") (e.title.getD "") (mkRat 4 5)) = true
      · rw [if_pos h2]
        obtain ⟨s, hs, hsub⟩ := ih acc seen
        exact ⟨s, hs, hsub.cons p⟩
      · rw [if_neg h2]
        obtain ⟨s, hs, hsub⟩ := ih (acc ++ [p]) (fun k => seen k || k == getProductKey p)
        exact ⟨p :: s, by rw [hs]; simp, hsub.cons₂ p⟩

theorem collapse2Aux_decomp : ∀ (l acc : List Hit) (seen : String → Bool),
    ∃ s, collapse2Aux l acc seen = acc ++ s ∧ s.Sublist l := by
  intro l
  induction l with
  | nil =>
    intro acc seen
    exact ⟨[], by simp [collapse2Aux], List.nil_sublist []⟩
  | cons p rest ih =>
    intro acc seen
    simp only [collapse2Aux]
    by_cases h1 : seen (getBaseHandle p) = true
    · rw [if_pos h1]
      obtain ⟨s, hs, hsub⟩ := ih acc seen
      exact ⟨s, hs, hsub.cons p⟩
    · rw [if_neg h1]
      obtain ⟨s, hs, hsub⟩ := ih (acc ++ [p]) (fun k => seen k || k == getBaseHandle p)
      exact ⟨p :: s, by rw [hs]; simp, hsub.cons₂ p⟩

theorem collapse1Aux_nodup_keys : ∀ (l acc : List Hit) (seen : String → Bool),
    (∀ x, x ∈ acc.map getProductKey → seen x = true) →
    (acc.map getProductKey).Nodup →
    ((collapse1Aux l acc seen).map getProductKey).Nodup := by
  intro l
  induction l with
  | nil => intro acc seen _ hnd; simpa [collapse1Aux] using hnd
  | cons p rest ih =>
    intro acc seen hinv hnd
    simp only [collapse1Aux]
    by_cases h1 : seen (getProductKey p) = true
    · rw [if_pos h1]; exact ih acc seen hinv hnd
    · rw [if_neg h1]
      by_cases h2 : (acc.any fun e =>
          areTitlesSimilar (p.title.getD "") (e.title.getD "") (mkRat 4 5)) = true
      · rw [if_pos h2]; exact ih acc seen hinv hnd
      · rw [if_neg h2]
        apply ih (acc ++ [p]) (fun k => seen k || k == getProductKey p)
        · intro x hx
          simp only [List.map_append, List.map_cons, List.map_nil, List.mem_append,
            List.mem_singleton] at hx
          rcases hx with hx | hx
          · simp [hinv x hx]
          · simp [hx]
        · have hni : getProductKey p ∉ acc.map getProductKey := fun hmem =>
            h1 (hinv (getProductKey p) hmem)
          simp [List.nodup_append, hnd, hni]

theorem collapse2Aux_nodup_keys : ∀ (l acc : List Hit) (seen : String → Bool),
    (∀ x, x ∈ acc.map getBaseHandle → seen x = true) →
    (acc.map getBaseHandle).Nodup →
    ((collapse2Aux l acc seen).map getBaseHandle).Nodup := by
  intro l
  induction l with
  | nil => intro acc seen _ hnd; simpa [collapse2Aux] using hnd
  | cons p rest ih =>
    intro acc seen hinv hnd
    simp only [collapse2Aux]
    by_cases h1 : seen (getBaseHandle p) = true
    · rw [if_pos h1]; exact ih acc seen hinv hnd
    · rw [if_neg h1]
      apply ih (acc ++ [p]) (fun k => seen k || k == getBaseHandle p)
      · intro x hx
        simp only [List.map_append, List.map_cons, List.map_nil, List.mem_append,
          List.mem_singleton] at hx
        rcases hx with hx | hx
        · simp [hinv x hx]
        · simp [hx]
      · have hni : getBaseHandle p ∉ acc.map getBaseHandle := fun hmem =>
          h1 (hinv (getBaseHandle p) hmem)
        simp [List.nodup_append, hnd, hni]

theorem collapse2Aux_acc (l : List Hit) : ∀ (acc : List Hit) (seen : String → Bool),
    collapse2Aux l acc seen = acc ++ collapse2Aux l [] seen := by
  induction l with
  | nil => intro acc seen; simp [collapse2Aux]
  | cons p rest ih =>
    intro acc seen
    simp only [collapse2Aux]
    by_cases h1 : seen (getBaseHandle p) = true
    · rw [if_pos h1, if_pos h1]
      exact ih acc seen
    · rw [if_neg h1, if_neg h1]
      rw [ih (acc ++ [p]) _, ih ([] ++ [p]) _]
      simp

theorem collapse2Aux_filter_seen (k : String) :
    ∀ (l : List Hit) (seen : String → Bool),
      collapse2Aux l [] (fun x => seen x || x == k)
        = collapse2Aux (l.filter (fun q => !(getBaseHandle q == k))) [] seen := by
  intro l
  induction l with
  | nil => intro seen; simp [collapse2Aux]
  | cons p rest ih =>
    intro seen
    by_cases hk : (getBaseHandle p == k) = true
    · rw [List.filter_cons_of_neg (by simp [hk])]
      simp only [collapse2Aux]
      rw [if_pos (by simp [hk])]
      exact ih seen
    · rw [List.filter_cons_of_pos (by simp [hk])]
      simp only [collapse2Aux]
      by_cases hs : seen (getBaseHandle p) = true
      · rw [if_pos (by simp [hs]), if_pos hs]
        exact ih seen
      · rw [if_neg (by simp [hs, hk]), if_neg hs]
        rw [collapse2Aux_acc _ ([] ++ [p]), collapse2Aux_acc _ ([] ++ [p])]
        congr 1
        calc collapse2Aux rest [] (fun x => (seen x || x == k) || x == getBaseHandle p)
            = collapse2Aux rest [] (fun x => (seen x || x == getBaseHandle p) || x == k) := by
              rw [show (fun x => (seen x || x == k) || x == getBaseHandle p)
                  = (fun x => (seen x || x == getBaseHandle p) || x == k) from by
                funext x
                rw [Bool.or_assoc, Bool.or_comm (x == k), ← Bool.or_assoc]]
          _ = collapse2Aux (rest.filter (fun q => !(getBaseHandle q == k))) []
                (fun x => seen x || x == getBaseHandle p) :=
              ih (fun x => seen x || x == getBaseHandle p)

theorem collapse2_cons_first (p : Hit) (l : List Hit)
    (hp : protoTruthy (getBaseHandle p) = false) :
    collapse2 (p :: l)
      = p :: collapse2 (l.filter (fun q => !(getBaseHandle q == getBaseHandle p))) := by
  unfold collapse2
  simp only [collapse2Aux]
  rw [if_neg (by simp [hp])]
  rw [collapse2Aux_acc]
  rw [collapse2Aux_filter_seen (getBaseHandle p) l protoTruthy]
  simp

theorem collapse2_cons_proto (p : Hit) (l : List Hit)
    (hp : protoTruthy (getBaseHandle p) = true) :
    collapse2 (p :: l) = collapse2 l := by
  unfold collapse2
  simp only [collapse2Aux]
  rw [if_pos (by simp [hp])]

/-- C4 (amended): both collapsers produce an order-preserving subsequence of
their input in which no two elements share a BaseIdentity.  In the photo
variant, for a head hit whose BaseIdentity is not an `Object.prototype`
member name, the head is kept and all later hits with its BaseIdentity are
discarded (only the first such hit survives); a head hit whose BaseIdentity
is such a member name reads as already seen on the fresh `{}` object and is
dropped outright.  In the title-similarity variant a later hit with the same
BaseIdentity may survive instead when every earlier one was dropped by the
title-similarity rule (see the counterexample), so there the guarantee is
uniqueness and order preservation only. -/
theorem c4_amended_collapser :
    (∀ hits : List Hit, (collapse1 hits).Sublist hits) ∧
    (∀ hits : List Hit,
      (collapse1 hits).Pairwise (fun a b => ¬ getProductKey a = getProductKey b)) ∧
    (∀ hits : List Hit, (collapse2 hits).Sublist hits) ∧
    (∀ hits : List Hit,
      (collapse2 hits).Pairwise (fun a b => ¬ getBaseHandle a = getBaseHandle b)) ∧
    (∀ (p : Hit) (l : List Hit), protoTruthy (getBaseHandle p) = false →
      collapse2 (p :: l)
        = p :: collapse2 (l.filter (fun q => !(getBaseHandle q == getBaseHandle p)))) ∧
    (∀ (p : Hit) (l : List Hit), protoTruthy (getBaseHandle p) = true →
      collapse2 (p :: l) = collapse2 l) := by
  refine ⟨?_, ?_, ?_, ?_, collapse2_cons_first, collapse2_cons_proto⟩
  · intro hits
    obtain ⟨s, hs, hsub⟩ := collapse1Aux_decomp hits [] protoTruthy
    unfold collapse1
    rw [hs]
    simpa using hsub
  · intro hits
    have h := collapse1Aux_nodup_keys hits [] protoTruthy (by simp) (by simp)
    rw [List.Nodup, List.pairwise_map] at h
    exact h.imp (fun hne => hne)
  · intro hits
    obtain ⟨s, hs, hsub⟩ := collapse2Aux_decomp hits [] protoTruthy
    unfold collapse2
    rw [hs]
    simpa using hsub
  · intro hits
    have h := collapse2Aux_nodup_keys hits [] protoTruthy (by simp) (by simp)
    rw [List.Nodup, List.pairwise_map] at h
    exact h.imp (fun hne => hne)

/-- C4 (witness): the conditional recursion equations of the amended theorem
at concrete inputs — an ordinary head (`titleHit1`, identity `"h1"`) is kept
and strips its later duplicates, while a head whose identity is the
`Object.prototype` member name `"toString"` is dropped outright. -/
theorem c4_amended_collapser_witness :
    protoTruthy (getBaseHandle titleHit1) = false ∧
    collapse2 [titleHit1, titleHit3]
      = titleHit1 :: collapse2
          ([titleHit3].filter (fun q => !(getBaseHandle q == getBaseHandle titleHit1))) ∧
    protoTruthy (getBaseHandle protoHandleHit) = true ∧
    collapse2 [protoHandleHit, titleHit3] = collapse2 [titleHit3] :=
  ⟨by decide, c4_amended_collapser.2.2.2.2.1 titleHit1 [titleHit3] (by decide),
    by decide, c4_amended_collapser.2.2.2.2.2 protoHandleHit [titleHit3] (by decide)⟩

/-! ## Grouping lemmas -/

theorem addToGroups_rel {κ : Type} [DecidableEq κ] (R : Hit → κ → Prop) :
    ∀ (gs : List (κ × List Hit)) (k : κ) (p : Hit),
      (∀ g ∈ gs, ∀ q ∈ g.2, R q g.1) → R p k →
      ∀ g ∈ addToGroups gs k p, ∀ q ∈ g.2, R q g.1 := by
  intro gs
  induction gs with
  | nil =>
    intro k p _ hp g hg q hq
    simp only [addToGroups, List.mem_singleton] at hg
    subst hg
    simp only [List.mem_singleton] at hq
    subst hq
    exact hp
  | cons g0 rest ih =>
    intro k p hall hp g hg q hq
    simp only [addToGroups] at hg
    by_cases he : g0.1 = k
    · rw [if_pos he] at hg
      rcases List.mem_cons.mp hg with hg | hg
      · subst hg
        rcases List.mem_append.mp hq with hq | hq
        · exact hall g0 (List.mem_cons_self g0 rest) q hq
        · simp only [List.mem_singleton] at hq
          subst hq
          rw [he]
          exact hp
      · exact hall g (List.mem_cons_of_mem _ hg) q hq
    · rw [if_neg he] at hg
      rcases List.mem_cons.mp hg with hg | hg
      · subst hg
        exact hall _ (List.mem_cons_self _ _) q hq
      · exact ih k p (fun g' hm => hall g' (List.mem_cons_of_mem _ hm)) hp g hg q hq

theorem groupByLocation_keyed (ps : List Hit) :
    ∀ g ∈ groupByLocation ps, ∀ q ∈ g.2, getLocationKey q = g.1 := by
  suffices h : ∀ (acc : List (LocKey × List Hit)),
      (∀ g ∈ acc, ∀ q ∈ g.2, getLocationKey q = g.1) →
      ∀ g ∈ ps.foldl (fun gs p => addToGroups gs (getLocationKey p) p) acc,
        ∀ q ∈ g.2, getLocationKey q = g.1 by
    exact h [] (by simp)
  induction ps with
  | nil => intro acc hacc; simpa using hacc
  | cons p rest ih =>
    intro acc hacc
    simp only [List.foldl_cons]
    exact ih _ (addToGroups_rel (fun q u => getLocationKey q = u) acc _ p hacc rfl)

theorem totalItems_addToGroups {κ : Type} [DecidableEq κ] :
    ∀ (gs : List (κ × List Hit)) (k : κ) (p : Hit),
      totalItems (addToGroups gs k p) = totalItems gs + 1 := by
  intro gs
  induction gs with
  | nil => intro k p; simp [addToGroups, totalItems]
  | cons g rest ih =>
    intro k p
    simp only [addToGroups]
    by_cases he : g.1 = k
    · rw [if_pos he]
      simp [totalItems]
      omega
    · rw [if_neg he]
      simp only [totalItems, List.map_cons, List.sum_cons] at ih ⊢
      rw [ih]
      omega

theorem totalItems_groupByLocation (ps : List Hit) :
    totalItems (groupByLocation ps) = ps.length := by
  suffices h : ∀ acc,
      totalItems (ps.foldl (fun gs p => addToGroups gs (getLocationKey p) p) acc)
        = totalItems acc + ps.length by
    simpa [totalItems] using h []
  induction ps with
  | nil => intro acc; simp
  | cons p rest ih =>
    intro acc
    simp only [List.foldl_cons, List.length_cons]
    rw [ih, totalItems_addToGroups]
    omega

/-! ## Distributor lemmas -/

theorem findSpot_some {maxPerLocation : Int} {s : DState} {idx : Nat}
    (h : findSpot maxPerLocation s = some idx) :
    ∃ k p rest, s.groups[idx]? = some (k, p :: rest) ∧
      ((s.counts k : Int) < maxPerLocation) ∧
      ¬ s.result.getLast?.map getLocationKey = some k := by
  unfold findSpot at h
  have hp := List.find?_some h
  unfold eligibleAt at hp
  cases hg : s.groups[idx]? with
  | none => rw [hg] at hp; simp at hp
  | some g =>
    rw [hg] at hp
    simp only [Bool.and_eq_true, Bool.not_eq_true', decide_eq_true_eq] at hp
    obtain ⟨⟨h1, h2⟩, h3⟩ := hp
    obtain ⟨k, ps⟩ := g
    cases ps with
    | nil => simp at h1
    | cons p rest => exact ⟨k, p, rest, rfl, h2, h3⟩

theorem place_eq {s : DState} {idx : Nat} {k : LocKey} {p : Hit} {rest : List Hit}
    (hg : s.groups[idx]? = some (k, p :: rest)) :
    place s idx
      = ⟨if rest.isEmpty then s.groups.eraseIdx idx else s.groups.set idx (k, rest),
          fun k2 => if k2 = k then s.counts k + 1 else s.counts k2,
          s.result ++ [p],
          (s.locationIndex + 1) % max 1 (if rest.isEmpty then s.groups.eraseIdx idx
              else s.groups.set idx (k, rest)).length⟩ := by
  simp only [place, hg]

theorem totalItems_eraseIdx {κ : Type} :
    ∀ (gs : List (κ × List Hit)) (i : Nat) (g : κ × List Hit), gs[i]? = some g →
      totalItems (gs.eraseIdx i) + g.2.length = totalItems gs := by
  intro gs
  induction gs with
  | nil => intro i g h; simp at h
  | cons g0 rest ih =>
    intro i g h
    cases i with
    | zero =>
      simp only [List.getElem?_cons_zero, Option.some.injEq] at h
      subst h
      simp [totalItems, List.eraseIdx]
      omega
    | succ n =>
      simp only [List.getElem?_cons_succ] at h
      simp only [List.eraseIdx_cons_succ, totalItems, List.map_cons, List.sum_cons]
      have := ih n g h
      simp only [totalItems] at this
      omega

theorem totalItems_set {κ : Type} :
    ∀ (gs : List (κ × List Hit)) (i : Nat) (g g2 : κ × List Hit), gs[i]? = some g →
      totalItems (gs.set i g2) + g.2.length = totalItems gs + g2.2.length := by
  intro gs
  induction gs with
  | nil => intro i g g2 h; simp at h
  | cons g0 rest ih =>
    intro i g g2 h
    cases i with
    | zero =>
      simp only [List.getElem?_cons_zero, Option.some.injEq] at h
      subst h
      simp [totalItems, List.set]
      omega
    | succ n =>
      simp only [List.getElem?_cons_succ] at h
      simp only [List.set_cons_succ, totalItems, List.map_cons, List.sum_cons]
      have := ih n g g2 h
      simp only [totalItems] at this
      omega

theorem place_inv (Mn : Nat) {M : Int} (hM : M ≤ (Mn : Int)) {s : DState} {idx : Nat}
    (h : findSpot M s = some idx)
    (hkeyed : ∀ g ∈ s.groups, ∀ q ∈ g.2, getLocationKey q = g.1)
    (hsync : ∀ k, occKey k s.result = s.counts k)
    (hcap : ∀ k, s.counts k ≤ Mn)
    (hchain : s.result.Chain' (fun a b => ¬ getLocationKey a = getLocationKey b)) :
    (∀ g ∈ (place s idx).groups, ∀ q ∈ g.2, getLocationKey q = g.1) ∧
    (∀ k, occKey k (place s idx).result = (place s idx).counts k) ∧
    (∀ k, (place s idx).counts k ≤ Mn) ∧
    (place s idx).result.Chain' (fun a b => ¬ getLocationKey a = getLocationKey b) := by
  obtain ⟨k, p, rest, hg, hcnt, hlast⟩ := findSpot_some h
  have hmem : (k, p :: rest) ∈ s.groups := List.getElem?_mem hg
  have hkp : getLocationKey p = k := hkeyed _ hmem p (List.mem_cons_self p rest)
  rw [place_eq hg]
  refine ⟨?_, ?_, ?_, ?_⟩
  · intro g hgm q hq
    simp only at hgm
    by_cases hre : rest.isEmpty
    · rw [if_pos hre] at hgm
      exact hkeyed g ((List.eraseIdx_sublist s.groups idx).subset hgm) q hq
    · rw [if_neg hre] at hgm
      rcases List.mem_or_eq_of_mem_set hgm with hgm | hgm
      · exact hkeyed g hgm q hq
      · subst hgm
        exact hkeyed _ hmem q (List.mem_cons_of_mem p hq)
  · intro k2
    simp only [occKey, List.countP_append]
    have hbase := hsync k2
    simp only [occKey] at hbase
    by_cases hk2 : k2 = k
    · subst hk2
      simp [List.countP_cons, hkp, hbase]
    · have hne : ¬ getLocationKey p = k2 := fun he => hk2 (hkp ▸ he).symm
      simp [List.countP_cons, hne, hk2, hbase]
  · intro k2
    show (if k2 = k then s.counts k + 1 else s.counts k2) ≤ Mn
    by_cases hk2 : k2 = k
    · rw [if_pos hk2]
      have h1 := hcnt
      have h2 := hcap k
      omega
    · rw [if_neg hk2]
      exact hcap k2
  · simp only []
    rw [List.chain'_append]
    refine ⟨hchain, List.chain'_singleton p, ?_⟩
    intro x hx y hy
    simp only [List.head?_cons, Option.mem_def, Option.some.injEq] at hy
    subst hy
    intro heq
    apply hlast
    rw [Option.mem_def] at hx
    rw [hx]
    simp [heq, hkp]

theorem distLoop_inv (Mn : Nat) (M T : Int) (hM : M ≤ (Mn : Int)) :
    ∀ (fuel : Nat) (s : DState),
      (∀ g ∈ s.groups, ∀ q ∈ g.2, getLocationKey q = g.1) →
      (∀ k, occKey k s.result = s.counts k) →
      (∀ k, s.counts k ≤ Mn) →
      s.result.Chain' (fun a b => ¬ getLocationKey a = getLocationKey b) →
      ((∀ k, occKey k (distLoop M T fuel s).result ≤ Mn) ∧
        (distLoop M T fuel s).result.Chain'
          (fun a b => ¬ getLocationKey a = getLocationKey b)) := by
  intro fuel
  induction fuel with
  | zero =>
    intro s h1 h2 h3 h4
    exact ⟨fun k => (h2 k).le.trans (h3 k), h4⟩
  | succ n ih =>
    intro s h1 h2 h3 h4
    simp only [distLoop]
    by_cases hc : ((s.result.length : Int) < T ∧ 0 < s.groups.length)
    · rw [if_pos hc]
      cases hf : findSpot M s with
      | none => exact ⟨fun k => (h2 k).le.trans (h3 k), h4⟩
      | some idx =>
        obtain ⟨g1, g2, g3, g4⟩ := place_inv Mn hM hf h1 h2 h3 h4
        exact ih (place s idx) g1 g2 g3 g4
    · rw [if_neg hc]
      exact ⟨fun k => (h2 k).le.trans (h3 k), h4⟩

theorem distLoop_conserve (M T : Int) :
    ∀ (fuel : Nat) (s : DState),
      (distLoop M T fuel s).result.length + totalItems (distLoop M T fuel s).groups
        = s.result.length + totalItems s.groups := by
  intro fuel
  induction fuel with
  | zero => intro s; rfl
  | succ n ih =>
    intro s
    simp only [distLoop]
    by_cases hc : ((s.result.length : Int) < T ∧ 0 < s.groups.length)
    · rw [if_pos hc]
      cases hf : findSpot M s with
      | none => rfl
      | some idx =>
        rw [ih (place s idx)]
        obtain ⟨k, p, rest, hg, -, -⟩ := findSpot_some hf
        rw [place_eq hg]
        simp only [List.length_append, List.length_singleton]
        by_cases hre : rest.isEmpty
        · rw [if_pos hre]
          have he := totalItems_eraseIdx s.groups idx (k, p :: rest) hg
          have : rest = [] := List.isEmpty_iff.mp hre
          subst this
          simp only [List.length_cons, List.length_nil] at he
          omega
        · rw [if_neg hre]
          have he := totalItems_set s.groups idx (k, p :: rest) (k, rest) hg
          simp only [List.length_cons] at he
          omega
    · rw [if_neg hc]

theorem distLoop_length_le (M T : Int) :
    ∀ (fuel : Nat) (s : DState),
      ((distLoop M T fuel s).result.length : Int) ≤ max (s.result.length : Int) T := by
  intro fuel
  induction fuel with
  | zero => intro s; exact le_max_left _ _
  | succ n ih =>
    intro s
    simp only [distLoop]
    by_cases hc : ((s.result.length : Int) < T ∧ 0 < s.groups.length)
    · rw [if_pos hc]
      cases hf : findSpot M s with
      | none => exact le_max_left _ _
      | some idx =>
        have hlen : (place s idx).result.length = s.result.length + 1 := by
          obtain ⟨k, p, rest, hg, -, -⟩ := findSpot_some hf
          rw [place_eq hg]
          simp
        have := ih (place s idx)
        rw [hlen] at this
        have hle : (s.result.length : Int) + 1 ≤ T := hc.1
        refine this.trans ?_
        have : max ((s.result.length + 1 : Nat) : Int) T = T := by
          push_cast
          omega
        rw [this]
        exact le_max_right _ _
    · rw [if_neg hc]
      exact le_max_left _ _

/-! ## Photo-engine lemmas -/

theorem drain_decomp (mR mP : Int) :
    ∀ (q : List QItem) (res : List Hit) (c : String → Nat),
      ∃ l, (drain mR mP q res c).1 = res ++ l ∧ (∀ p ∈ l, ∃ it, it ∈ q ∧ it.product = p) ∧
        l.length ≤ q.length := by
  intro q
  induction q with
  | nil =>
    intro res c
    exact ⟨[], by simp [drain], by simp, by simp⟩
  | cons it rest ih =>
    intro res c
    simp only [drain]
    by_cases h1 : ((res.length : Int) < mR)
    · rw [if_pos h1]
      by_cases h2 : ((c it.uuid : Int) < mP)
      · rw [if_pos h2]
        obtain ⟨l, hl, hm, hlen⟩ := ih (res ++ [it.product]) _
        refine ⟨it.product :: l, by rw [hl]; simp, ?_, by simpa using Nat.succ_le_succ hlen⟩
        intro p hp
        rcases List.mem_cons.mp hp with hp | hp
        · exact ⟨it, List.mem_cons_self it rest, hp.symm⟩
        · obtain ⟨it', hit, he⟩ := hm p hp
          exact ⟨it', List.mem_cons_of_mem _ hit, he⟩
      · rw [if_neg h2]
        obtain ⟨l, hl, hm, hlen⟩ := ih res c
        refine ⟨l, hl, ?_, hlen.trans (Nat.le_succ _)⟩
        intro p hp
        obtain ⟨it', hit, he⟩ := hm p hp
        exact ⟨it', List.mem_cons_of_mem _ hit, he⟩
    · rw [if_neg h1]
      exact ⟨[], by simp, by simp, by simp⟩

theorem drain_length_le (mR mP : Int) :
    ∀ (q : List QItem) (res : List Hit) (c : String → Nat),
      ((drain mR mP q res c).1.length : Int) ≤ max (res.length : Int) mR := by
  intro q
  induction q with
  | nil => intro res c; exact le_max_left _ _
  | cons it rest ih =>
    intro res c
    simp only [drain]
    by_cases h1 : ((res.length : Int) < mR)
    · rw [if_pos h1]
      by_cases h2 : ((c it.uuid : Int) < mP)
      · rw [if_pos h2]
        refine (ih (res ++ [it.product]) _).trans ?_
        simp only [List.length_append, List.length_singleton]
        have : max ((res.length + 1 : Nat) : Int) mR = mR := by
          push_cast
          omega
        rw [this]
        exact le_max_right _ _
      · rw [if_neg h2]
        exact ih res c
    · rw [if_neg h1]
      exact le_max_left _ _

theorem drain_counts (mR : Int) (Mn : Nat) {mP : Int} (hM : mP ≤ (Mn : Int)) :
    ∀ (q : List QItem) (res : List Hit) (c : String → Nat),
      (∀ it ∈ q, getLocationPhoto it.product = some it.uuid) →
      (∀ u, occPhoto u res = c u) →
      (∀ u, c u ≤ Mn) →
      ((∀ u, occPhoto u (drain mR mP q res c).1 = (drain mR mP q res c).2 u) ∧
        (∀ u, (drain mR mP q res c).2 u ≤ Mn)) := by
  intro q
  induction q with
  | nil =>
    intro res c _ hsync hcap
    exact ⟨hsync, hcap⟩
  | cons it rest ih =>
    intro res c hq hsync hcap
    simp only [drain]
    by_cases h1 : ((res.length : Int) < mR)
    · rw [if_pos h1]
      by_cases h2 : ((c it.uuid : Int) < mP)
      · rw [if_pos h2]
        apply ih (res ++ [it.product]) _
          (fun it' hm => hq it' (List.mem_cons_of_mem _ hm))
        · intro u
          simp only [occPhoto, List.countP_append]
          have hbase := hsync u
          simp only [occPhoto] at hbase
          have hph : getLocationPhoto it.product = some it.uuid :=
            hq it (List.mem_cons_self it rest)
          by_cases hu : u = it.uuid
          · subst hu
            simp [List.countP_cons, hph, hbase]
          · have hne : ¬ getLocationPhoto it.product = some u := by
              rw [hph]
              simp
              exact fun he => hu he.symm
            simp [List.countP_cons, hne, hbase, hu]
        · intro u
          by_cases hu : u = it.uuid
          · rw [if_pos hu]
            have := hcap it.uuid
            omega
          · rw [if_neg hu]
            exact hcap u
      · rw [if_neg h2]
        exact ih res c (fun it' hm => hq it' (List.mem_cons_of_mem _ hm)) hsync hcap
    · rw [if_neg h1]
      exact ⟨hsync, hcap⟩

theorem mem_createDistributionQueue {g : List (String × List Hit)} {n : Int} {it : QItem}
    (h : it ∈ createDistributionQueue g n) :
    ∃ e, e ∈ g ∧ e.1 = it.uuid ∧ it.product ∈ e.2 := by
  unfold createDistributionQueue at h
  rw [List.mem_flatMap] at h
  obtain ⟨round, -, hmem⟩ := h
  rw [List.mem_filterMap] at hmem
  obtain ⟨e, he, hfe⟩ := hmem
  cases hge : e.2[round]? with
  | none => rw [hge] at hfe; simp at hfe
  | some p =>
    rw [hge] at hfe
    simp only [Option.some.injEq] at hfe
    subst hfe
    exact ⟨e, he, rfl, List.getElem?_mem hge⟩

theorem groupByLocationPhoto_inv (l : List Hit) :
    (∀ e ∈ (groupByLocationPhoto l).1, ∀ q ∈ e.2, getLocationPhoto q = some e.1 ∧ q ∈ l) ∧
    (∀ q ∈ (groupByLocationPhoto l).2, getLocationPhoto q = none ∧ q ∈ l) := by
  suffices h : ∀ (rest : List Hit) (acc : List (String × List Hit) × List Hit),
      (∀ q ∈ rest, q ∈ l) →
      (∀ e ∈ acc.1, ∀ q ∈ e.2, getLocationPhoto q = some e.1 ∧ q ∈ l) →
      (∀ q ∈ acc.2, getLocationPhoto q = none ∧ q ∈ l) →
      ((∀ e ∈ (rest.foldl (fun acc p =>
            match getLocationPhoto p with
            | some u => (addToGroups acc.1 u p, acc.2)
            | none => (acc.1, acc.2 ++ [p])) acc).1, ∀ q ∈ e.2,
          getLocationPhoto q = some e.1 ∧ q ∈ l) ∧
        (∀ q ∈ (rest.foldl (fun acc p =>
            match getLocationPhoto p with
            | some u => (addToGroups acc.1 u p, acc.2)
            | none => (acc.1, acc.2 ++ [p])) acc).2,
          getLocationPhoto q = none ∧ q ∈ l)) by
    exact h l ([], []) (fun q hq => hq) (by simp) (by simp)
  intro rest
  induction rest with
  | nil =>
    intro acc _ h1 h2
    exact ⟨h1, h2⟩
  | cons p tail ih =>
    intro acc hsub h1 h2
    simp only [List.foldl_cons]
    cases hph : getLocationPhoto p with
    | some u =>
      simp only [hph]
      apply ih _ (fun q hq => hsub q (List.mem_cons_of_mem _ hq))
      · exact addToGroups_rel (fun q u2 => getLocationPhoto q = some u2 ∧ q ∈ l) acc.1 u p h1
          ⟨hph, hsub p (List.mem_cons_self p tail)⟩
      · exact h2
    | none =>
      simp only [hph]
      apply ih (acc.1, acc.2 ++ [p]) (fun q hq => hsub q (List.mem_cons_of_mem _ hq)) h1
      intro q hq
      rcases List.mem_append.mp hq with hq | hq
      · exact h2 q hq
      · simp only [List.mem_singleton] at hq
        subst hq
        exact ⟨hph, hsub q (List.mem_cons_self q tail)⟩

theorem groupByLocationPhoto_total (l : List Hit) :
    totalItems (groupByLocationPhoto l).1 + (groupByLocationPhoto l).2.length = l.length := by
  suffices h : ∀ (rest : List Hit) (acc : List (String × List Hit) × List Hit),
      totalItems (rest.foldl (fun acc p =>
          match getLocationPhoto p with
          | some u => (addToGroups acc.1 u p, acc.2)
          | none => (acc.1, acc.2 ++ [p])) acc).1
        + (rest.foldl (fun acc p =>
            match getLocationPhoto p with
            | some u => (addToGroups acc.1 u p, acc.2)
            | none => (acc.1, acc.2 ++ [p])) acc).2.length
        = totalItems acc.1 + acc.2.length + rest.length by
    simpa [totalItems] using h l ([], [])
  intro rest
  induction rest with
  | nil => intro acc; simp
  | cons p tail ih =>
    intro acc
    simp only [List.foldl_cons, List.length_cons]
    cases hph : getLocationPhoto p with
    | some u =>
      simp only [hph]
      rw [ih]
      simp only [totalItems_addToGroups]
      omega
    | none =>
      simp only [hph]
      rw [ih]
      simp only [List.length_append, List.length_singleton]
      omega

theorem length_filter_featured (l : List Hit) :
    (l.filter (fun p => isFeatured p)).length + (l.filter (fun p => !isFeatured p)).length
      = l.length := by
  induction l with
  | nil => rfl
  | cons p rest ih =>
    cases h : isFeatured p <;> simp [List.filter_cons, h] <;> omega

theorem sum_map_add {α : Type} (l : List α) (f g : α → Nat) :
    (l.map (fun x => f x + g x)).sum = (l.map f).sum + (l.map g).sum := by
  induction l with
  | nil => rfl
  | cons a rest ih =>
    simp only [List.map_cons, List.sum_cons, ih]
    omega

theorem sum_indicator_range (m s : Nat) :
    ((List.range m).map (fun r => if r < s then 1 else 0)).sum = min m s := by
  induction m with
  | zero => simp
  | succ n ih =>
    rw [List.range_succ, List.map_append, List.sum_append, ih]
    by_cases h : n < s
    · rw [List.map_singleton, if_pos h]
      simp
      omega
    · rw [List.map_singleton, if_neg h]
      simp
      omega

theorem createQueue_length_le (n : Int) :
    ∀ (g : List (String × List Hit)),
      (createDistributionQueue g n).length ≤ totalItems g := by
  intro g
  induction g with
  | nil =>
    simp [createDistributionQueue, totalItems, flatMap_const_nil, List.filterMap_nil]
  | cons e gs ih =>
    unfold createDistributionQueue at ih ⊢
    rw [List.length_flatMap] at ih ⊢
    have hsplit : ∀ round : Nat,
        ((e :: gs).filterMap (fun g2 =>
            match g2.2[round]? with
            | some p => some (⟨g2.1, p, round, isFeatured p⟩ : QItem)
            | none => none)).length
          = (if round < e.2.length then 1 else 0)
            + (gs.filterMap (fun g2 =>
                match g2.2[round]? with
                | some p => some (⟨g2.1, p, round, isFeatured p⟩ : QItem)
                | none => none)).length := by
      intro round
      rw [List.filterMap_cons]
      cases hge : e.2[round]? with
      | none =>
        have hlt : ¬ round < e.2.length := by
          rw [List.getElem?_eq_none_iff] at hge
          omega
        simp [hlt]
      | some p =>
        have hlt : round < e.2.length := by
          by_contra hcon
          rw [List.getElem?_eq_none_iff.mpr (by omega)] at hge
          exact absurd hge (by simp)
        simp [hlt]
        omega
    simp only [Function.comp_def] at ih ⊢
    simp only [hsplit]
    rw [sum_map_add, sum_indicator_range]
    simp only [totalItems, List.map_cons, List.sum_cons] at ih ⊢
    have hmin : min n.toNat e.2.length ≤ e.2.length := Nat.min_le_right _ _
    omega

/-! ## C2, C7, C9: distributor invariants -/

/-- C9: in the Distributor's output two consecutive items never share a
LocationGroupKey at all — the placement guard (`canPlace`,
`src/server.js:129-136`) refuses a same-key neighbour unconditionally, and
when only same-key candidates remain the loop stops rather than place one —
so in particular the claim's conditional (consecutive items share a key only
when every remaining active group's next candidate shares it) holds. -/
theorem c9_no_adjacent_repeat (hits : List Hit) (M T : Int) :
    (deduplicateForCollection hits M T).Chain'
      (fun a b => ¬ getLocationKey a = getLocationKey b) := by
  unfold deduplicateForCollection
  exact (distLoop_inv M.toNat M T (Int.self_le_toNat M) _
    ⟨groupByLocation (collapse1 hits), fun _ => 0, [], 0⟩
    (groupByLocation_keyed _) (fun k => by simp [occKey]) (fun k => Nat.zero_le _)
    (by simp)).2

/-- C2: in both engine variants the output length never exceeds the requested
target count, and never exceeds the number of hits surviving the
deduplication stage (the capping of this code happens during distribution,
so the collapser's output is exactly the set entering the capped stages). -/
theorem c2_budget :
    (∀ (hits : List Hit) (M : Int) (T : Nat),
        (deduplicateForCollection hits M (T : Int)).length ≤ T ∧
        (deduplicateForCollection hits M (T : Int)).length ≤ (collapse1 hits).length) ∧
    (∀ (hits : List Hit) (P : Int) (T : Nat),
        (deduplicateByLocationPhotoServer hits (T : Int) P).length ≤ T ∧
        (deduplicateByLocationPhotoServer hits (T : Int) P).length ≤ (collapse2 hits).length) := by
  constructor
  · intro hits M T
    simp only [deduplicateForCollection]
    constructor
    · have h := distLoop_length_le M (T : Int) ((collapse1 hits).length * 2)
        ⟨groupByLocation (collapse1 hits), fun _ => 0, [], 0⟩
      simp only [List.length_nil] at h
      push_cast at h
      omega
    · have h := distLoop_conserve M (T : Int) ((collapse1 hits).length * 2)
        ⟨groupByLocation (collapse1 hits), fun _ => 0, [], 0⟩
      have htot := totalItems_groupByLocation (collapse1 hits)
      simp only [List.length_nil] at h
      omega
  · intro hits P T
    simp only [deduplicateByLocationPhotoServer]
    set U := collapse2 hits with hU
    set FP := U.filter (fun p => isFeatured p) with hFP
    set RP := U.filter (fun p => !isFeatured p) with hRP
    set FG := groupByLocationPhoto FP with hFG
    set RG := groupByLocationPhoto RP with hRG
    set FQ := createDistributionQueue FG.1 P with hFQ
    set RQ := createDistributionQueue RG.1 P with hRQ
    set D1 := drain (T : Int) P FQ [] (fun _ => 0) with hD1
    set D2 := drain (T : Int) P RQ D1.1 D1.2 with hD2
    have hlen2 : (D2.1.length : Int) ≤ (T : Int) := by
      have h1 : (D1.1.length : Int) ≤ max ((([] : List Hit)).length : Int) (T : Int) :=
        drain_length_le (T : Int) P FQ [] (fun _ => 0)
      have h2 : (D2.1.length : Int) ≤ max (D1.1.length : Int) (T : Int) :=
        drain_length_le (T : Int) P RQ D1.1 D1.2
      simp only [List.length_nil, Nat.cast_zero] at h1
      omega
    have hdec1 : ∃ l, D1.1 = [] ++ l ∧ (∀ p ∈ l, ∃ it, it ∈ FQ ∧ it.product = p) ∧
        l.length ≤ FQ.length := drain_decomp (T : Int) P FQ [] (fun _ => 0)
    have hdec2 : ∃ l, D2.1 = D1.1 ++ l ∧ (∀ p ∈ l, ∃ it, it ∈ RQ ∧ it.product = p) ∧
        l.length ≤ RQ.length := drain_decomp (T : Int) P RQ D1.1 D1.2
    obtain ⟨l1, hl1, -, hql1⟩ := hdec1
    obtain ⟨l2, hl2, -, hql2⟩ := hdec2
    have hq1 : FQ.length ≤ totalItems FG.1 := createQueue_length_le P FG.1
    have hq2 : RQ.length ≤ totalItems RG.1 := createQueue_length_le P RG.1
    have hg1 : totalItems FG.1 + FG.2.length = FP.length := groupByLocationPhoto_total FP
    have hg2 : totalItems RG.1 + RG.2.length = RP.length := groupByLocationPhoto_total RP
    have hpart : FP.length + RP.length = U.length := length_filter_featured U
    have hd1len : D1.1.length = l1.length := by rw [hl1]; simp
    have hd2len : D2.1.length = D1.1.length + l2.length := by rw [hl2]; simp
    constructor
    · by_cases hrem : (0 : Int) < (T : Int) - (D2.1.length : Int)
      · rw [if_pos hrem]
        have htk : ((FG.2 ++ RG.2).take (((T : Int) - (D2.1.length : Int)).toNat)).length
            ≤ (((T : Int) - (D2.1.length : Int)).toNat) := List.length_take_le _ _
        simp only [List.length_append]
        omega
      · rw [if_neg hrem]
        omega
    · by_cases hrem : (0 : Int) < (T : Int) - (D2.1.length : Int)
      · rw [if_pos hrem]
        have htk : ((FG.2 ++ RG.2).take (((T : Int) - (D2.1.length : Int)).toNat)).length
            ≤ (FG.2 ++ RG.2).length := List.length_take_le' _ _
        simp only [List.length_append] at htk ⊢
        omega
      · rw [if_neg hrem]
        omega

/-- C7: in the coordinate variant no LocationGroupKey (singleton fallbacks
included, so in particular no non-singleton key) occurs more than
`maxPerGroup` times in the output; in the photo variant no location-photo
identifier occurs more than `maxPerPhoto` times across the featured and
regular tiers combined (the photo counters are shared by both drains, and
the trailing no-photo block adds no photo occurrences). -/
theorem c7_group_cap :
    (∀ (hits : List Hit) (M : Nat) (T : Int) (k : LocKey),
        occKey k (deduplicateForCollection hits (M : Int) T) ≤ M) ∧
    (∀ (hits : List Hit) (M : Nat) (T : Int) (u : String),
        occPhoto u (deduplicateByLocationPhotoServer hits T (M : Int)) ≤ M) := by
  constructor
  · intro hits M T k
    simp only [deduplicateForCollection]
    exact (distLoop_inv M (M : Int) T le_rfl _
      ⟨groupByLocation (collapse1 hits), fun _ => 0, [], 0⟩
      (groupByLocation_keyed _) (fun k2 => by simp [occKey]) (fun k2 => Nat.zero_le _)
      (by simp)).1 k
  · intro hits M T u
    simp only [deduplicateByLocationPhotoServer]
    set U := collapse2 hits with hU
    set FP := U.filter (fun p => isFeatured p) with hFP
    set RP := U.filter (fun p => !isFeatured p) with hRP
    set FG := groupByLocationPhoto FP with hFG
    set RG := groupByLocationPhoto RP with hRG
    set FQ := createDistributionQueue FG.1 (M : Int) with hFQ
    set RQ := createDistributionQueue RG.1 (M : Int) with hRQ
    set D1 := drain T (M : Int) FQ [] (fun _ => 0) with hD1
    set D2 := drain T (M : Int) RQ D1.1 D1.2 with hD2
    have hq1 : ∀ it ∈ FQ, getLocationPhoto it.product = some it.uuid := by
      intro it hit
      obtain ⟨e, he, he1, he2⟩ := mem_createDistributionQueue hit
      rw [← he1]
      exact ((groupByLocationPhoto_inv FP).1 e he it.product he2).1
    have hq2 : ∀ it ∈ RQ, getLocationPhoto it.product = some it.uuid := by
      intro it hit
      obtain ⟨e, he, he1, he2⟩ := mem_createDistributionQueue hit
      rw [← he1]
      exact ((groupByLocationPhoto_inv RP).1 e he it.product he2).1
    have hd1 : (∀ u2, occPhoto u2 D1.1 = D1.2 u2) ∧ (∀ u2, D1.2 u2 ≤ M) :=
      drain_counts T M le_rfl FQ [] (fun _ => 0) hq1
        (fun u2 => by simp [occPhoto]) (fun u2 => Nat.zero_le _)
    have hd2 : (∀ u2, occPhoto u2 D2.1 = D2.2 u2) ∧ (∀ u2, D2.2 u2 ≤ M) :=
      drain_counts T M le_rfl RQ D1.1 D1.2 hq2 hd1.1 hd1.2
    by_cases hrem : (0 : Int) < T - (D2.1.length : Int)
    · rw [if_pos hrem]
      simp only [occPhoto, List.countP_append]
      have htk : (((FG.2 ++ RG.2).take ((T - (D2.1.length : Int)).toNat)).countP
          (fun p => decide (getLocationPhoto p = some u))) = 0 := by
        rw [List.countP_eq_zero]
        intro p hp
        have hmem := List.take_subset _ _ hp
        rcases List.mem_append.mp hmem with hm | hm
        · have := ((groupByLocationPhoto_inv FP).2 p hm).1
          simp [this]
        · have := ((groupByLocationPhoto_inv RP).2 p hm).1
          simp [this]
      have hocc := hd2.1 u
      simp only [occPhoto] at hocc
      rw [htk, hocc]
      simpa using hd2.2 u
    · rw [if_neg hrem]
      have hocc := hd2.1 u
      simp only [occPhoto] at hocc ⊢
      rw [hocc]
      exact hd2.2 u

theorem dropWhile_append_all {α : Type} (f : α → Bool) :
    ∀ (l r : List α), (∀ x ∈ l, f x = true) → (l ++ r).dropWhile f = r.dropWhile f := by
  intro l
  induction l with
  | nil => intro r _; rfl
  | cons a rest ih =>
    intro r hall
    rw [List.cons_append, List.dropWhile_cons_of_pos (hall a (List.mem_cons_self a rest))]
    exact ih r (fun x hx => hall x (List.mem_cons_of_mem _ hx))

theorem mem_of_mem_dropWhile {α : Type} {f : α → Bool} {l : List α} {x : α}
    (h : x ∈ l.dropWhile f) : x ∈ l :=
  (List.dropWhile_suffix f).sublist.mem h

/-- C6 (amended): in the featured-first variant every featured hit drawn from
the photo queues precedes every regular hit, but a featured hit without a
location photo is only appended in the trailing no-photo block and may
follow regular hits; equivalently, after the leading run of featured items
no featured hit with a location photo ever appears.  In particular, in the
spec's Scenario D — 2 featured plus 10 regular hits that all carry location
photos, `targetCount = 6`, `maxPerPhoto = 2` — the output begins with the
two featured hits and fills the remaining 4 slots with regular hits. -/
theorem c6_amended_featured_first :
    (∀ (hits : List Hit) (mR mP : Int),
        (((deduplicateByLocationPhotoServer hits mR mP).dropWhile
            (fun p => isFeatured p)).all
          (fun p => !(isFeatured p && (getLocationPhoto p).isSome))) = true) ∧
    (deduplicateByLocationPhotoServer scenarioD 6 2).take 2
      = [fHit "f1" "pa", fHit "f2" "pb"] ∧
    (deduplicateByLocationPhotoServer scenarioD 6 2).length = 6 := by
  refine ⟨?_, by decide, by decide⟩
  intro hits mR mP
  rw [List.all_eq_true]
  simp only [deduplicateByLocationPhotoServer]
  set U := collapse2 hits with hU
  set FP := U.filter (fun p => isFeatured p) with hFP
  set RP := U.filter (fun p => !isFeatured p) with hRP
  set FG := groupByLocationPhoto FP with hFG
  set RG := groupByLocationPhoto RP with hRG
  set FQ := createDistributionQueue FG.1 mP with hFQ
  set RQ := createDistributionQueue RG.1 mP with hRQ
  set D1 := drain mR mP FQ [] (fun _ => 0) with hD1
  set D2 := drain mR mP RQ D1.1 D1.2 with hD2
  have hdec1 : ∃ l, D1.1 = [] ++ l ∧ (∀ p ∈ l, ∃ it, it ∈ FQ ∧ it.product = p) ∧
      l.length ≤ FQ.length := drain_decomp mR mP FQ [] (fun _ => 0)
  have hdec2 : ∃ l, D2.1 = D1.1 ++ l ∧ (∀ p ∈ l, ∃ it, it ∈ RQ ∧ it.product = p) ∧
      l.length ≤ RQ.length := drain_decomp mR mP RQ D1.1 D1.2
  obtain ⟨l1, hl1, hm1, -⟩ := hdec1
  obtain ⟨l2, hl2, hm2, -⟩ := hdec2
  have hfeat1 : ∀ x ∈ l1, isFeatured x = true := by
    intro x hx
    obtain ⟨it, hit, he⟩ := hm1 x hx
    obtain ⟨e, he2, -, he4⟩ := mem_createDistributionQueue hit
    have hmem : it.product ∈ FP := ((groupByLocationPhoto_inv FP).1 e he2 it.product he4).2
    rw [← he]
    exact (List.mem_filter.mp hmem).2
  have hpred2 : ∀ x ∈ l2, (!(isFeatured x && (getLocationPhoto x).isSome)) = true := by
    intro x hx
    obtain ⟨it, hit, he⟩ := hm2 x hx
    obtain ⟨e, he2, -, he4⟩ := mem_createDistributionQueue hit
    have hmem : it.product ∈ RP := ((groupByLocationPhoto_inv RP).1 e he2 it.product he4).2
    have hnf := (List.mem_filter.mp hmem).2
    simp only [Bool.not_eq_true'] at hnf
    rw [← he]
    simp [hnf]
  have hpredT : ∀ x ∈ FG.2 ++ RG.2, (!(isFeatured x && (getLocationPhoto x).isSome)) = true := by
    intro x hx
    rcases List.mem_append.mp hx with hm | hm
    · have := ((groupByLocationPhoto_inv FP).2 x hm).1
      simp [this]
    · have := ((groupByLocationPhoto_inv RP).2 x hm).1
      simp [this]
  have hD2form : D2.1 = l1 ++ l2 := by
    rw [hl2, hl1]
    simp
  by_cases hrem : (0 : Int) < mR - (D2.1.length : Int)
  · rw [if_pos hrem]
    intro p hp
    rw [hD2form, List.append_assoc] at hp
    rw [dropWhile_append_all _ l1 _ hfeat1] at hp
    have hmem := mem_of_mem_dropWhile hp
    rcases List.mem_append.mp hmem with hm | hm
    · exact hpred2 p hm
    · exact hpredT p (List.take_subset _ _ hm)
  · rw [if_neg hrem]
    intro p hp
    rw [hD2form] at hp
    rw [dropWhile_append_all _ l1 _ hfeat1] at hp
    exact hpred2 p (mem_of_mem_dropWhile hp)

theorem collapse1_cons (h : Hit) (t : List Hit)
    (hp : protoTruthy (getProductKey h) = false) :
    ∃ s, collapse1 (h :: t) = h :: s ∧ s.Sublist t := by
  unfold collapse1
  simp only [collapse1Aux]
  rw [if_neg (by simp [hp]), if_neg (by simp)]
  obtain ⟨s, hs, hsub⟩ := collapse1Aux_decomp t ([] ++ [h])
    (fun k => protoTruthy k || k == getProductKey h)
  exact ⟨s, by rw [hs]; simp, hsub⟩

theorem groupByLocation_single (k : LocKey) :
    ∀ (l : List Hit), (∀ p ∈ l, getLocationKey p = k) → l ≠ [] →
      groupByLocation l = [(k, l)] := by
  have haux : ∀ (l' : List Hit) (acc : List Hit),
      (∀ p ∈ l', getLocationKey p = k) →
      (l'.foldl (fun gs p => addToGroups gs (getLocationKey p) p) [(k, acc)])
        = [(k, acc ++ l')] := by
    intro l'
    induction l' with
    | nil => intro acc _; simp
    | cons p rest ih =>
      intro acc hall
      simp only [List.foldl_cons]
      rw [hall p (List.mem_cons_self p rest)]
      rw [show addToGroups [(k, acc)] k p = [(k, acc ++ [p])] from by simp [addToGroups]]
      rw [ih (acc ++ [p]) (fun q hq => hall q (List.mem_cons_of_mem _ hq))]
      simp
  intro l hall hne
  cases l with
  | nil => exact absurd rfl hne
  | cons p rest =>
    unfold groupByLocation
    simp only [List.foldl_cons]
    rw [hall p (List.mem_cons_self p rest)]
    rw [show addToGroups ([] : List (LocKey × List Hit)) k p = [(k, [p])] from rfl]
    rw [haux rest [p] (fun q hq => hall q (List.mem_cons_of_mem _ hq))]
    simp

theorem findSpot_none_of_lastSame (M : Int) (s : DState)
    (hlen : s.groups.length = 1)
    (hkey : ∀ g ∈ s.groups, s.result.getLast?.map getLocationKey = some g.1) :
    findSpot M s = none := by
  unfold findSpot scanOrder
  rw [hlen]
  simp only [List.range_succ, List.range_zero, List.nil_append, List.map_cons, List.map_nil,
    Nat.add_zero, Nat.mod_one]
  rw [List.find?_cons_of_neg]
  · exact List.find?_nil
  · cases hg : s.groups[0]? with
    | none => simp [eligibleAt, hg]
    | some g =>
      have hmem : g ∈ s.groups := List.getElem?_mem hg
      have hsame := hkey g hmem
      simp [eligibleAt, hg, hsame]

theorem distLoop_empty_groups (M T : Int) (fuel : Nat) (c : LocKey → Nat) (res : List Hit)
    (li : Nat) : (distLoop M T fuel ⟨[], c, res, li⟩).result = res := by
  cases fuel with
  | zero => rfl
  | succ n =>
    rw [distLoop]
    rw [if_neg (by simp)]

theorem distLoop_stall_single (M T : Int) (fuel : Nat) (g : LocKey × List Hit) (c : LocKey → Nat)
    (res : List Hit) (li : Nat)
    (hkey : res.getLast?.map getLocationKey = some g.1) :
    (distLoop M T (fuel + 1) ⟨[g], c, res, li⟩).result = res := by
  rw [distLoop]
  by_cases hc : (((res.length : Nat) : Int) < T ∧ 0 < ([g] : List (LocKey × List Hit)).length)
  · rw [if_pos hc]
    rw [findSpot_none_of_lastSame M ⟨[g], c, res, li⟩ (by simp) (by
      intro g2 hg2
      simp only [List.mem_singleton] at hg2
      subst hg2
      exact hkey)]
  · rw [if_neg hc]

/-- C1 (amended): when all hits share one LocationGroupKey and the first
hit's ProductKey is not an `Object.prototype` member name (such a hit reads
as already seen on the `{}` object `seenProducts` and is silently dropped in
step 1), the distributor does not place a forced same-key item — after the
first placement every remaining candidate carries the key of the last placed
item, the inner scan finds nothing eligible and the loop breaks
(`foundProduct` stays false).  With `maxPerGroup = 2` and `targetCount = 10`
the output length is therefore exactly 1, not the 2 claimed. -/
theorem c1_amended_stall (h : Hit) (t : List Hit) (k : LocKey)
    (hall : ∀ p ∈ h :: t, getLocationKey p = k)
    (hp : protoTruthy (getProductKey h) = false) :
    (deduplicateForCollection (h :: t) 2 10).length = 1 := by
  obtain ⟨s, hcol, hsub⟩ := collapse1_cons h t hp
  simp only [deduplicateForCollection, hcol]
  have hallk : ∀ p ∈ h :: s, getLocationKey p = k := by
    intro p hp
    rcases List.mem_cons.mp hp with rfl | hp
    · exact hall p (List.mem_cons_self p t)
    · exact hall p (List.mem_cons_of_mem _ (hsub.mem hp))
  rw [groupByLocation_single k (h :: s) hallk (by simp)]
  have hfuel : (h :: s).length * 2 = s.length * 2 + 1 + 1 := by
    simp only [List.length_cons]
    omega
  rw [hfuel]
  rw [distLoop]
  rw [if_pos (by constructor <;> norm_num)]
  have hfind : findSpot 2 ⟨[(k, h :: s)], fun _ => 0, [], 0⟩ = some 0 := by
    unfold findSpot scanOrder
    simp only [List.length_singleton, List.range_succ, List.range_zero, List.nil_append,
      List.map_cons, List.map_nil, Nat.add_zero, Nat.mod_one]
    rw [List.find?_cons_of_pos]
    simp [eligibleAt]
  rw [hfind]
  show (distLoop 2 10 (s.length * 2 + 1)
      (place ⟨[(k, h :: s)], fun _ => 0, [], 0⟩ 0)).result.length = 1
  cases s with
  | nil =>
    rw [place_eq (show (⟨[(k, [h])], fun _ => 0, [], 0⟩ : DState).groups[0]?
        = some (k, h :: ([] : List Hit)) from rfl)]
    simp only [List.isEmpty_nil, if_true, List.nil_append, List.eraseIdx_cons_zero]
    rw [distLoop_empty_groups]
    simp
  | cons q s2 =>
    rw [place_eq (show (⟨[(k, h :: q :: s2)], fun _ => 0, [], 0⟩ : DState).groups[0]?
        = some (k, h :: q :: s2) from rfl)]
    simp only [List.isEmpty_cons, Bool.false_eq_true, if_false, List.nil_append,
      List.set_cons_zero]
    rw [distLoop_stall_single 2 10 ((q :: s2).length * 2) (k, q :: s2)
      (fun k2 => if k2 = k then 0 + 1 else 0) [h] ((0 + 1) % (1 ⊔ [(k, q :: s2)].length))
      (by simp [hallk h (List.mem_cons_self h (q :: s2))])]
    simp

/-- C1 (witness): the amended stall behaviour at a concrete two-hit input
sharing the `google_id` key `"g1"`. -/
theorem c1_amended_stall_witness :
    (∀ p ∈ [gHit "h1", gHit "h2"], getLocationKey p = LocKey.googleId "g1") ∧
    protoTruthy (getProductKey (gHit "h1")) = false ∧
    (deduplicateForCollection [gHit "h1", gHit "h2"] 2 10).length = 1 :=
  ⟨by decide, by decide,
    c1_amended_stall (gHit "h1") [gHit "h2"] (LocKey.googleId "g1") (by decide) (by decide)⟩
